import Mathlib

/-!
Verification of the 2048 board engine and AI move-resolution pipeline.

The definitions below are shallow embeddings of the game logic in
`ai_game.py` (shared by `console_game.py`), plus the rejection-sampling
tile spawner of `game.py`.  Boards are lists of rows of natural numbers;
the Python `random` primitives are modelled by explicit index / stream
parameters.
-/

namespace Game2048

/-- GRID_LEN constant from the source. -/
def GRID_LEN : Nat := 4

/-- A board is a list of rows of natural numbers. -/
abbrev Board := List (List Nat)

/-- Well-formed 4x4 board. -/
def WF4 (B : Board) : Prop := B.length = 4 ∧ ∀ r ∈ B, r.length = 4

instance : DecidablePred WF4 := fun B => by unfold WF4; infer_instance

/-- mat[i][j] with 0 as the out-of-range default. -/
def getCell (mat : Board) (i j : Nat) : Nat := (mat.getD i []).getD j 0

/-- In-place cell assignment `mat[a][b] = v` (no-op out of range, which
matches Python only on in-range indices; all uses are in range). -/
def setCell (mat : Board) (a b v : Nat) : Board :=
  mat.set a ((mat.getD a []).set b v)

/-- Inner loop of `cover_up`: walks a row with current column index `j`
and write index `count`, collecting the nonzero values and flagging
`done` when a nonzero cell moves (`j != count`). -/
def coverRowGo : List Nat → Nat → Nat → List Nat × Bool
  | [], _, _ => ([], false)
  | x :: rest, j, count =>
    if x ≠ 0 then
      let p := coverRowGo rest (j + 1) (count + 1)
      (x :: p.1, (decide (j ≠ count)) || p.2)
    else
      coverRowGo rest (j + 1) count

/-- One row of `cover_up`: the collected nonzero values, padded with
zeros to GRID_LEN, and the per-row `done` flag. -/
def coverRow (row : List Nat) : List Nat × Bool :=
  let p := coverRowGo row 0 0
  (p.1 ++ List.replicate (GRID_LEN - p.1.length) 0, p.2)

/-- Function `cover_up(mat)`: compress each row to the left; `done` is true when
any nonzero cell of any row moved. -/
def cover_up (mat : Board) : Board × Bool :=
  (mat.map fun r => (coverRow r).1, mat.any fun r => (coverRow r).2)

/-- The in-place left-to-right merge scan of one row, given the cell
currently under inspection (`head`) and the cells to its right.  A merge
doubles the left cell and zeroes the right one, and the zeroed cell is
what the scan compares next — so a freshly merged tile is never merged
again in the same pass. -/
def mergeRowCore (head : Nat) : List Nat → Bool → List Nat × Bool
  | [], done => ([head], done)
  | b :: rest, done =>
    if head = b ∧ head ≠ 0 then
      let p := mergeRowCore 0 rest true
      (head * 2 :: p.1, p.2)
    else
      let p := mergeRowCore b rest done
      (head :: p.1, p.2)

/-- The merge scan of one full row. -/
def mergeRowGo : List Nat → Bool → List Nat × Bool
  | [], done => ([], done)
  | a :: rest, done => mergeRowCore a rest done

/-- Function `merge(mat, done)`: merge each row once, or-ing the per-row merge
flags into the incoming `done` flag (the Python threads `done` through
the rows, which accumulates exactly this disjunction). -/
def merge (mat : Board) (done : Bool) : Board × Bool :=
  (mat.map fun r => (mergeRowGo r false).1,
   done || mat.any fun r => (mergeRowGo r false).2)

/-- Function `reverse(mat)`: reverse each row. -/
def reverse (mat : Board) : Board := mat.map List.reverse

/-- Function `transpose(mat)`: new[i][j] = mat[j][i] for i over the first row's
length and j over the number of rows. -/
def transpose (mat : Board) : Board :=
  (List.range (mat.headD []).length).map fun i => mat.map fun row => row.getD i 0

/-- Function `left(game)`: cover, merge, cover. -/
def left (game : Board) : Board × Bool :=
  let p := cover_up game
  let q := merge p.1 p.2
  ((cover_up q.1).1, q.2)

/-- Function `right(game)`: reverse, cover, merge, cover, reverse. -/
def right (game : Board) : Board × Bool :=
  let g := reverse game
  let p := cover_up g
  let q := merge p.1 p.2
  (reverse (cover_up q.1).1, q.2)

/-- Function `up(game)`: transpose, cover, merge, cover, transpose. -/
def up (game : Board) : Board × Bool :=
  let g := transpose game
  let p := cover_up g
  let q := merge p.1 p.2
  (transpose (cover_up q.1).1, q.2)

/-- Function `down(game)`: reverse∘transpose, cover, merge, cover, transpose∘reverse. -/
def down (game : Board) : Board × Bool :=
  let g := reverse (transpose game)
  let p := cover_up g
  let q := merge p.1 p.2
  (transpose (reverse (cover_up q.1).1), q.2)

/-- Function `game_state(mat)`: win on any 2048 cell, not over on any empty cell
or any adjacent equal pair (interior pairs, then the trailing row and
trailing column explicitly), else lose. -/
def game_state (mat : Board) : String :=
  if (List.range mat.length).any (fun i =>
      (List.range (mat.headD []).length).any fun j => getCell mat i j == 2048)
  then "win"
  else if (List.range mat.length).any (fun i =>
      (List.range (mat.headD []).length).any fun j => getCell mat i j == 0)
  then "not over"
  else if (List.range (mat.length - 1)).any (fun i =>
      (List.range ((mat.headD []).length - 1)).any fun j =>
        getCell mat (i + 1) j == getCell mat i j ||
        getCell mat i (j + 1) == getCell mat i j)
  then "not over"
  else if (List.range (mat.length - 1)).any (fun k =>
      getCell mat (mat.length - 1) k == getCell mat (mat.length - 1) (k + 1))
  then "not over"
  else if (List.range (mat.length - 1)).any (fun j =>
      getCell mat j (mat.length - 1) == getCell mat (j + 1) (mat.length - 1))
  then "not over"
  else "lose"

/-- Function `calculate_score(matrix)`: sum of all cells. -/
def calculate_score (matrix : Board) : Nat := (matrix.map List.sum).sum

/-- Function `get_valid_moves(matrix)`: the directions (in UP, DOWN, LEFT, RIGHT
order) whose move operator reports `changed=true` on a scratch copy. -/
def get_valid_moves (matrix : Board) : List String :=
  (([("UP", up), ("DOWN", down), ("LEFT", left), ("RIGHT", right)] :
      List (String × (Board → Board × Bool))).filter
    fun mt => (mt.2 matrix).2).map Prod.fst

/-- The `empty_cells` comprehension from `add_two` in ai_game.py /
console_game.py: row-major positions of the zero cells. -/
def empty_cells (mat : Board) : List (Nat × Nat) :=
  (List.range mat.length).flatMap fun i =>
    ((List.range (mat.headD []).length).filter fun j => getCell mat i j == 0).map
      fun j => (i, j)

/-- Function `add_two(mat)` of ai_game.py / console_game.py: place a 2 on a
randomly chosen empty cell, or return the board unchanged when there is
none.  `random.choice` is modelled by the index parameter `k`. -/
def add_two (mat : Board) (k : Nat) : Board :=
  let ec := empty_cells mat
  if ec.isEmpty then mat
  else
    let p := ec.getD (k % ec.length) (0, 0)
    setCell mat p.1 p.2 2

/-- Function `new_game(n)`: all-zero n x n grid followed by two spawns. -/
def new_game (n : Nat) (k₁ k₂ : Nat) : Board :=
  add_two (add_two (List.replicate n (List.replicate n 0)) k₁) k₂

/-- Function `add_two(mat)` of game.py: repeatedly draw a random position until
it lands on an empty cell.  The random stream is an explicit list of
draws (reduced mod `len(mat)` like `random.randint(0, len(mat)-1)`);
`none` means the stream was exhausted with the loop still running. -/
def add_two_rej (mat : Board) : List (Nat × Nat) → Option Board
  | [] => none
  | s :: rest =>
    let a := s.1 % mat.length
    let b := s.2 % mat.length
    if getCell mat a b != 0 then add_two_rej mat rest
    else some (setCell mat a b 2)

/-! ### Row-level facts about `cover_up` -/

/-- Every cell of the row is zero. -/
def all0 (r : List Nat) : Bool := r.all fun y => y == 0

/-- The nonzero cells of the row form a prefix (no zero precedes a
nonzero cell), i.e. the row is already compacted to the left. -/
def noGap : List Nat → Bool
  | [] => true
  | x :: rest => if x = 0 then all0 rest else noGap rest

/-- Number of nonzero cells. -/
def countNZ (r : List Nat) : Nat := r.countP fun x => decide (x ≠ 0)


theorem all0_cons (x : Nat) (r : List Nat) :
    all0 (x :: r) = true ↔ (x = 0 ∧ all0 r = true) := by
  simp only [all0, List.all_cons, Bool.and_eq_true, beq_iff_eq]

theorem all0_iff (r : List Nat) : all0 r = true ↔ ∀ v ∈ r, v = 0 := by
  induction r with
  | nil => simp [all0]
  | cons x rest ih =>
      rw [all0_cons]
      simp only [List.mem_cons, ih]
      constructor
      · rintro ⟨hx, h⟩ v (rfl | hv)
        · exact hx
        · exact h v hv
      · intro h
        exact ⟨h x (Or.inl rfl), fun v hv => h v (Or.inr hv)⟩

theorem all0_noGap : ∀ r, all0 r = true → noGap r = true := by
  intro r h
  cases r with
  | nil => rfl
  | cons x rest =>
      rw [all0_cons] at h
      simp only [noGap, h.1, if_pos rfl]
      exact h.2

theorem all0_replicate (r : List Nat) (h : all0 r = true) :
    r = List.replicate r.length 0 := by
  induction r with
  | nil => rfl
  | cons x rest ih =>
      rw [all0_cons] at h
      simp only [List.length_cons, List.replicate_succ, h.1]
      exact congrArg (0 :: ·) (ih h.2)

theorem noGap_cons_zero (rest : List Nat) : noGap (0 :: rest) = all0 rest := by
  simp [noGap]

theorem noGap_cons_nz (x : Nat) (rest : List Nat) (hx : x ≠ 0) :
    noGap (x :: rest) = noGap rest := by
  simp [noGap, hx]

theorem coverRowGo_zero (x : Nat) (rest : List Nat) (hx : x = 0) (j c : Nat) :
    coverRowGo (x :: rest) j c = coverRowGo rest (j + 1) c := by
  simp [coverRowGo, hx]

theorem coverRowGo_nz (x : Nat) (rest : List Nat) (hx : x ≠ 0) (j c : Nat) :
    coverRowGo (x :: rest) j c =
      ((x :: (coverRowGo rest (j + 1) (c + 1)).1),
       (decide (j ≠ c)) || (coverRowGo rest (j + 1) (c + 1)).2) := by
  simp [coverRowGo, hx]

theorem coverRowGo_all0 (r : List Nat) (h : all0 r = true) :
    ∀ j c, (coverRowGo r j c).1 = [] := by
  induction r with
  | nil => intro j c; rfl
  | cons x rest ih =>
      intro j c
      rw [all0_cons] at h
      rw [coverRowGo_zero x rest h.1]
      exact ih h.2 (j + 1) c

theorem coverRowGo_sum (r : List Nat) :
    ∀ j c, (coverRowGo r j c).1.sum = r.sum := by
  induction r with
  | nil => intro j c; rfl
  | cons x rest ih =>
      intro j c
      by_cases hx : x = 0
      · rw [coverRowGo_zero x rest hx, ih, List.sum_cons, hx, Nat.zero_add]
      · rw [coverRowGo_nz x rest hx, List.sum_cons, List.sum_cons, ih]

theorem coverRowGo_nonzero (r : List Nat) :
    ∀ j c, ∀ v ∈ (coverRowGo r j c).1, v ≠ 0 := by
  induction r with
  | nil => intro j c v hv; cases hv
  | cons x rest ih =>
      intro j c v hv
      by_cases hx : x = 0
      · rw [coverRowGo_zero x rest hx] at hv
        exact ih (j + 1) c v hv
      · rw [coverRowGo_nz x rest hx] at hv
        rcases List.mem_cons.1 hv with rfl | hv
        · exact hx
        · exact ih (j + 1) (c + 1) v hv

theorem coverRowGo_mem (r : List Nat) :
    ∀ j c, ∀ v ∈ (coverRowGo r j c).1, v ∈ r := by
  induction r with
  | nil => intro j c v hv; cases hv
  | cons x rest ih =>
      intro j c v hv
      by_cases hx : x = 0
      · rw [coverRowGo_zero x rest hx] at hv
        exact List.mem_cons_of_mem x (ih (j + 1) c v hv)
      · rw [coverRowGo_nz x rest hx] at hv
        rcases List.mem_cons.1 hv with h | hv
        · rw [h]; exact List.mem_cons_self _ _
        · exact List.mem_cons_of_mem x (ih (j + 1) (c + 1) v hv)

theorem coverRowGo_countNZ (r : List Nat) :
    ∀ j c, countNZ (coverRowGo r j c).1 = countNZ r := by
  induction r with
  | nil => intro j c; rfl
  | cons x rest ih =>
      intro j c
      by_cases hx : x = 0
      · rw [coverRowGo_zero x rest hx, ih]
        simp only [countNZ, List.countP_cons, hx]
        simp
      · rw [coverRowGo_nz x rest hx]
        simp only [countNZ, List.countP_cons] at ih ⊢
        rw [ih]

theorem coverRowGo_length_le (r : List Nat) :
    ∀ j c, (coverRowGo r j c).1.length ≤ r.length := by
  induction r with
  | nil => intro j c; exact Nat.le_refl 0
  | cons x rest ih =>
      intro j c
      by_cases hx : x = 0
      · rw [coverRowGo_zero x rest hx]
        exact Nat.le_trans (ih (j + 1) c) (Nat.le_succ _)
      · rw [coverRowGo_nz x rest hx]
        simpa using ih (j + 1) (c + 1)

theorem coverRowGo_snd (r : List Nat) :
    ∀ j c, c ≤ j →
      ((coverRowGo r j c).2 = false ↔
        ((c = j ∧ noGap r = true) ∨ all0 r = true)) := by
  induction r with
  | nil => intro j c _; simp [coverRowGo, all0]
  | cons x rest ih =>
      intro j c hcj
      by_cases hx : x = 0
      · subst hx
        rw [coverRowGo_zero 0 rest rfl, ih (j + 1) c (by omega),
          noGap_cons_zero, all0_cons]
        constructor
        · rintro (⟨hc, _⟩ | ha)
          · omega
          · exact Or.inr ⟨rfl, ha⟩
        · rintro (⟨_, hg⟩ | ⟨_, ha⟩)
          · exact Or.inr hg
          · exact Or.inr ha
      · rw [coverRowGo_nz x rest hx, noGap_cons_nz x rest hx]
        have ha0 : all0 (x :: rest) = false := by
          rw [Bool.eq_false_iff]
          intro hc
          exact hx ((all0_cons x rest).1 hc).1
        rw [ha0]
        simp only [Bool.or_eq_false_iff, decide_eq_false_iff_not, not_not,
          Bool.false_eq_true, or_false]
        rw [ih (j + 1) (c + 1) (by omega)]
        constructor
        · rintro ⟨hjc, (⟨_, hg⟩ | ha)⟩
          · exact ⟨hjc.symm, hg⟩
          · exact ⟨hjc.symm, all0_noGap rest ha⟩
        · rintro ⟨hc, hg⟩
          exact ⟨hc.symm, Or.inl ⟨by omega, hg⟩⟩

theorem sum_replicate_zero (n : Nat) : (List.replicate n (0 : Nat)).sum = 0 := by
  induction n with
  | zero => rfl
  | succ n ih => simp [List.replicate_succ, ih]

theorem countNZ_replicate_zero (n : Nat) :
    countNZ (List.replicate n (0 : Nat)) = 0 := by
  induction n with
  | zero => rfl
  | succ n ih =>
      simp only [countNZ, List.replicate_succ, List.countP_cons] at ih ⊢
      simp [ih]

theorem countNZ_append (a b : List Nat) :
    countNZ (a ++ b) = countNZ a + countNZ b := by
  simp [countNZ, List.countP_append]

theorem all0_replicate_zero (m : Nat) : all0 (List.replicate m 0) = true := by
  induction m with
  | zero => rfl
  | succ m ih =>
      rw [List.replicate_succ, all0_cons]
      exact ⟨rfl, ih⟩

theorem coverRow_snd_iff (r : List Nat) :
    ((coverRow r).2 = false) ↔ noGap r = true := by
  have e : (coverRow r).2 = (coverRowGo r 0 0).2 := rfl
  rw [e, coverRowGo_snd r 0 0 (Nat.le_refl 0)]
  constructor
  · rintro (⟨_, hg⟩ | ha)
    · exact hg
    · exact all0_noGap r ha
  · intro hg
    exact Or.inl ⟨rfl, hg⟩

theorem coverRow_sum (r : List Nat) : (coverRow r).1.sum = r.sum := by
  show ((coverRowGo r 0 0).1 ++ _).sum = r.sum
  rw [List.sum_append, coverRowGo_sum, sum_replicate_zero, Nat.add_zero]

theorem coverRow_countNZ (r : List Nat) : countNZ (coverRow r).1 = countNZ r := by
  show countNZ ((coverRowGo r 0 0).1 ++ _) = countNZ r
  rw [countNZ_append, coverRowGo_countNZ, countNZ_replicate_zero, Nat.add_zero]

theorem coverRow_length (r : List Nat) (h : r.length = 4) :
    (coverRow r).1.length = 4 := by
  show ((coverRowGo r 0 0).1 ++ _).length = 4
  have hle := coverRowGo_length_le r 0 0
  rw [h] at hle
  simp only [List.length_append, List.length_replicate, GRID_LEN]
  omega

theorem noGap_append_replicate (xs : List Nat) (n : Nat)
    (h : ∀ v ∈ xs, v ≠ 0) : noGap (xs ++ List.replicate n 0) = true := by
  induction xs with
  | nil =>
      cases n with
      | zero => rfl
      | succ m =>
          rw [List.nil_append, List.replicate_succ, noGap_cons_zero]
          exact all0_replicate_zero m
  | cons x rest ih =>
      have hx : x ≠ 0 := h x (List.mem_cons_self x rest)
      rw [List.cons_append, noGap_cons_nz _ _ hx]
      exact ih fun v hv => h v (List.mem_cons_of_mem x hv)

theorem noGap_coverRow (r : List Nat) : noGap (coverRow r).1 = true := by
  show noGap ((coverRowGo r 0 0).1 ++ _) = true
  exact noGap_append_replicate _ _ (coverRowGo_nonzero r 0 0)

theorem noGap_go_append (r : List Nat) (h : noGap r = true) :
    ∀ j c, (coverRowGo r j c).1
      ++ List.replicate (r.length - (coverRowGo r j c).1.length) 0 = r := by
  induction r with
  | nil => intro j c; rfl
  | cons x rest ih =>
      intro j c
      by_cases hx : x = 0
      · subst hx
        rw [noGap_cons_zero] at h
        rw [coverRowGo_zero 0 rest rfl, coverRowGo_all0 rest h]
        have ha : all0 (0 :: rest) = true := (all0_cons 0 rest).2 ⟨rfl, h⟩
        simpa using (all0_replicate _ ha).symm
      · rw [noGap_cons_nz x rest hx] at h
        rw [coverRowGo_nz x rest hx]
        simp only [List.length_cons]
        rw [Nat.succ_sub_succ, List.cons_append]
        exact congrArg (x :: ·) (ih h (j + 1) (c + 1))

theorem coverRow_eq_self (r : List Nat) (hl : r.length = 4) (h : noGap r = true) :
    (coverRow r).1 = r := by
  show (coverRowGo r 0 0).1 ++ List.replicate (GRID_LEN - _) 0 = r
  rw [show GRID_LEN = r.length from by simp [GRID_LEN, hl]]
  exact noGap_go_append r h 0 0

theorem coverRow_fix_iff (r : List Nat) (hl : r.length = 4) :
    (coverRow r).2 = false ↔ (coverRow r).1 = r := by
  constructor
  · intro h
    exact coverRow_eq_self r hl ((coverRow_snd_iff r).1 h)
  · intro h
    rw [coverRow_snd_iff]
    have hg := noGap_coverRow r
    rwa [h] at hg

theorem coverRow_mem (r : List Nat) (v : Nat) (hv : v ∈ (coverRow r).1) :
    v ∈ r ∨ v = 0 := by
  have e : (coverRow r).1 = (coverRowGo r 0 0).1 ++ _ := rfl
  rw [e] at hv
  rcases List.mem_append.1 hv with h | h
  · exact Or.inl (coverRowGo_mem r 0 0 v h)
  · exact Or.inr (List.eq_of_mem_replicate h)

/-! ### Row-level facts about `merge` -/

/-- No two adjacent equal nonzero cells, starting from `head`. -/
def noPairCore (head : Nat) : List Nat → Bool
  | [] => true
  | b :: rest => if head = b ∧ head ≠ 0 then false else noPairCore b rest

/-- No two adjacent equal nonzero cells in the row. -/
def noPair : List Nat → Bool
  | [] => true
  | a :: rest => noPairCore a rest

theorem countNZ_cons_zero (r : List Nat) : countNZ (0 :: r) = countNZ r := by
  simp [countNZ, List.countP_cons]

theorem countNZ_cons_nz (x : Nat) (r : List Nat) (hx : x ≠ 0) :
    countNZ (x :: r) = countNZ r + 1 := by
  simp [countNZ, List.countP_cons, hx]

theorem mergeRowCore_cons_merge (h b : Nat) (rest : List Nat) (d : Bool)
    (hm : h = b ∧ h ≠ 0) :
    mergeRowCore h (b :: rest) d =
      (h * 2 :: (mergeRowCore 0 rest true).1, (mergeRowCore 0 rest true).2) := by
  simp only [mergeRowCore, if_pos hm]

theorem mergeRowCore_cons_skip (h b : Nat) (rest : List Nat) (d : Bool)
    (hm : ¬(h = b ∧ h ≠ 0)) :
    mergeRowCore h (b :: rest) d =
      (h :: (mergeRowCore b rest d).1, (mergeRowCore b rest d).2) := by
  simp only [mergeRowCore, if_neg hm]

theorem mergeRowCore_true_snd (l : List Nat) :
    ∀ h, (mergeRowCore h l true).2 = true := by
  induction l with
  | nil => intro h; rfl
  | cons b rest ih =>
      intro h
      by_cases hm : h = b ∧ h ≠ 0
      · rw [mergeRowCore_cons_merge h b rest true hm]
        exact ih 0
      · rw [mergeRowCore_cons_skip h b rest true hm]
        exact ih b

theorem mergeRowCore_split (l : List Nat) :
    ∀ h d, mergeRowCore h l d =
      ((mergeRowCore h l false).1, d || (mergeRowCore h l false).2) := by
  induction l with
  | nil => intro h d; simp [mergeRowCore]
  | cons b rest ih =>
      intro h d
      by_cases hm : h = b ∧ h ≠ 0
      · rw [mergeRowCore_cons_merge h b rest d hm,
          mergeRowCore_cons_merge h b rest false hm,
          mergeRowCore_true_snd rest 0, Bool.or_true]
      · rw [mergeRowCore_cons_skip h b rest d hm,
          mergeRowCore_cons_skip h b rest false hm, ih b d]

theorem mergeRowCore_fix (l : List Nat) :
    ∀ h, (mergeRowCore h l false).2 = false →
      (mergeRowCore h l false).1 = h :: l := by
  induction l with
  | nil => intro h _; rfl
  | cons b rest ih =>
      intro h hf
      by_cases hm : h = b ∧ h ≠ 0
      · rw [mergeRowCore_cons_merge h b rest false hm] at hf
        rw [mergeRowCore_true_snd rest 0] at hf
        cases hf
      · rw [mergeRowCore_cons_skip h b rest false hm] at hf ⊢
        rw [ih b hf]

theorem mergeRowCore_flag_iff (l : List Nat) :
    ∀ h, ((mergeRowCore h l false).2 = false ↔ noPairCore h l = true) := by
  induction l with
  | nil => intro h; simp [mergeRowCore, noPairCore]
  | cons b rest ih =>
      intro h
      by_cases hm : h = b ∧ h ≠ 0
      · rw [mergeRowCore_cons_merge h b rest false hm,
          mergeRowCore_true_snd rest 0]
        simp only [noPairCore, if_neg, if_pos hm]
        simp
      · rw [mergeRowCore_cons_skip h b rest false hm]
        simp only [noPairCore, if_neg hm]
        exact ih b

theorem mergeRowCore_sum (l : List Nat) :
    ∀ h d, (mergeRowCore h l d).1.sum = h + l.sum := by
  induction l with
  | nil => intro h d; simp [mergeRowCore]
  | cons b rest ih =>
      intro h d
      by_cases hm : h = b ∧ h ≠ 0
      · rw [mergeRowCore_cons_merge h b rest d hm]
        simp only [List.sum_cons, ih 0 true]
        have := hm.1
        omega
      · rw [mergeRowCore_cons_skip h b rest d hm]
        simp only [List.sum_cons, ih b d]

theorem mergeRowCore_length (l : List Nat) :
    ∀ h d, (mergeRowCore h l d).1.length = l.length + 1 := by
  induction l with
  | nil => intro h d; rfl
  | cons b rest ih =>
      intro h d
      by_cases hm : h = b ∧ h ≠ 0
      · rw [mergeRowCore_cons_merge h b rest d hm]
        simp [ih 0 true]
      · rw [mergeRowCore_cons_skip h b rest d hm]
        simp [ih b d]

theorem mergeRowCore_countNZ_le (l : List Nat) :
    ∀ h d, countNZ (mergeRowCore h l d).1 ≤ countNZ (h :: l) := by
  induction l with
  | nil => intro h d; exact Nat.le_refl _
  | cons b rest ih =>
      intro h d
      by_cases hm : h = b ∧ h ≠ 0
      · rw [mergeRowCore_cons_merge h b rest d hm]
        have hb : b ≠ 0 := hm.1 ▸ hm.2
        have h2 : h * 2 ≠ 0 := by have := hm.2; omega
        have h1 := ih 0 true
        rw [countNZ_cons_zero] at h1
        rw [countNZ_cons_nz _ _ h2, countNZ_cons_nz _ _ hm.2, countNZ_cons_nz _ _ hb]
        omega
      · rw [mergeRowCore_cons_skip h b rest d hm]
        have h1 := ih b d
        by_cases hh : h = 0
        · subst hh
          rw [countNZ_cons_zero, countNZ_cons_zero]
          exact h1
        · rw [countNZ_cons_nz _ _ hh, countNZ_cons_nz _ _ hh]
          omega

theorem mergeRowCore_countNZ_lt (l : List Nat) :
    ∀ h, (mergeRowCore h l false).2 = true →
      countNZ (mergeRowCore h l false).1 < countNZ (h :: l) := by
  induction l with
  | nil => intro h hf; cases hf
  | cons b rest ih =>
      intro h hf
      by_cases hm : h = b ∧ h ≠ 0
      · rw [mergeRowCore_cons_merge h b rest false hm]
        have hb : b ≠ 0 := hm.1 ▸ hm.2
        have h2 : h * 2 ≠ 0 := by have := hm.2; omega
        have h1 := mergeRowCore_countNZ_le rest 0 true
        rw [countNZ_cons_zero] at h1
        rw [countNZ_cons_nz _ _ h2, countNZ_cons_nz _ _ hm.2, countNZ_cons_nz _ _ hb]
        omega
      · rw [mergeRowCore_cons_skip h b rest false hm] at hf ⊢
        have h1 := ih b hf
        by_cases hh : h = 0
        · subst hh
          rw [countNZ_cons_zero, countNZ_cons_zero]
          exact h1
        · rw [countNZ_cons_nz _ _ hh, countNZ_cons_nz _ _ hh]
          omega

theorem mergeRowCore_mem (l : List Nat) :
    ∀ h d v, v ∈ (mergeRowCore h l d).1 →
      v = 0 ∨ v ∈ h :: l ∨ ∃ w, w ∈ h :: l ∧ v = w * 2 := by
  induction l with
  | nil =>
      intro h d v hv
      rcases List.mem_cons.1 hv with h' | h'
      · exact Or.inr (Or.inl (h' ▸ List.mem_cons_self _ _))
      · cases h'
  | cons b rest ih =>
      intro h d v hv
      by_cases hm : h = b ∧ h ≠ 0
      · rw [mergeRowCore_cons_merge h b rest d hm] at hv
        rcases List.mem_cons.1 hv with h' | h'
        · exact Or.inr (Or.inr ⟨h, List.mem_cons_self _ _, h'⟩)
        · rcases ih 0 true v h' with h0 | hmem | ⟨w, hw, hval⟩
          · exact Or.inl h0
          · rcases List.mem_cons.1 hmem with h0 | hmem
            · exact Or.inl h0
            · exact Or.inr (Or.inl (List.mem_cons_of_mem _ (List.mem_cons_of_mem _ hmem)))
          · rcases List.mem_cons.1 hw with h0 | hw
            · exact Or.inl (by rw [hval, h0])
            · exact Or.inr (Or.inr ⟨w,
                List.mem_cons_of_mem _ (List.mem_cons_of_mem _ hw), hval⟩)
      · rw [mergeRowCore_cons_skip h b rest d hm] at hv
        rcases List.mem_cons.1 hv with h' | h'
        · exact Or.inr (Or.inl (h' ▸ List.mem_cons_self _ _))
        · rcases ih b d v h' with h0 | hmem | ⟨w, hw, hval⟩
          · exact Or.inl h0
          · exact Or.inr (Or.inl (List.mem_cons_of_mem _ hmem))
          · exact Or.inr (Or.inr ⟨w, List.mem_cons_of_mem _ hw, hval⟩)

theorem mergeRowGo_fst_indep (r : List Nat) (d : Bool) :
    (mergeRowGo r d).1 = (mergeRowGo r false).1 := by
  cases r with
  | nil => rfl
  | cons a rest =>
      show (mergeRowCore a rest d).1 = (mergeRowCore a rest false).1
      rw [mergeRowCore_split rest a d]

theorem mergeRowGo_fix (r : List Nat) (hf : (mergeRowGo r false).2 = false) :
    (mergeRowGo r false).1 = r := by
  cases r with
  | nil => rfl
  | cons a rest => exact mergeRowCore_fix rest a hf

theorem mergeRowGo_flag_iff (r : List Nat) :
    (mergeRowGo r false).2 = false ↔ noPair r = true := by
  cases r with
  | nil => simp [mergeRowGo, noPair]
  | cons a rest => exact mergeRowCore_flag_iff rest a

theorem mergeRowGo_sum (r : List Nat) (d : Bool) :
    (mergeRowGo r d).1.sum = r.sum := by
  cases r with
  | nil => rfl
  | cons a rest =>
      show (mergeRowCore a rest d).1.sum = (a :: rest).sum
      rw [mergeRowCore_sum rest a d, List.sum_cons]

theorem mergeRowGo_length (r : List Nat) (d : Bool) :
    (mergeRowGo r d).1.length = r.length := by
  cases r with
  | nil => rfl
  | cons a rest =>
      show (mergeRowCore a rest d).1.length = (a :: rest).length
      rw [mergeRowCore_length rest a d, List.length_cons]

theorem mergeRowGo_countNZ_lt (r : List Nat)
    (hf : (mergeRowGo r false).2 = true) :
    countNZ (mergeRowGo r false).1 < countNZ r := by
  cases r with
  | nil => cases hf
  | cons a rest => exact mergeRowCore_countNZ_lt rest a hf

theorem mergeRowGo_mem (r : List Nat) (d : Bool) (v : Nat)
    (hv : v ∈ (mergeRowGo r d).1) :
    v = 0 ∨ v ∈ r ∨ ∃ w, w ∈ r ∧ v = w * 2 := by
  cases r with
  | nil => cases hv
  | cons a rest => exact mergeRowCore_mem rest a d v hv

/-! ### One row of a left move, and board-level plumbing -/

/-- The `changed` contribution of one row to a left move. -/
def rowFlag (r : List Nat) : Bool :=
  (coverRow r).2 || (mergeRowGo (coverRow r).1 false).2

/-- The result of one row under a left move (cover, merge, cover). -/
def rowRes (r : List Nat) : List Nat :=
  (coverRow ((mergeRowGo (coverRow r).1 false).1)).1

/-- Board value after cover-merge-cover. -/
def cmVal (M : Board) : Board :=
  (cover_up (merge (cover_up M).1 (cover_up M).2).1).1

/-- Board `changed` flag after cover-merge-cover. -/
def cmFlag (M : Board) : Bool :=
  (merge (cover_up M).1 (cover_up M).2).2

theorem left_eq (M : Board) : left M = (cmVal M, cmFlag M) := rfl

theorem right_eq (M : Board) :
    right M = (reverse (cmVal (reverse M)), cmFlag (reverse M)) := rfl

theorem up_eq (M : Board) :
    up M = (transpose (cmVal (transpose M)), cmFlag (transpose M)) := rfl

theorem down_eq (M : Board) :
    down M = (transpose (reverse (cmVal (reverse (transpose M)))),
      cmFlag (reverse (transpose M))) := rfl

theorem rowRes_length (r : List Nat) (h : r.length = 4) :
    (rowRes r).length = 4 := by
  unfold rowRes
  apply coverRow_length
  rw [mergeRowGo_length]
  exact coverRow_length r h

theorem rowRes_sum (r : List Nat) : (rowRes r).sum = r.sum := by
  unfold rowRes
  rw [coverRow_sum, mergeRowGo_sum, coverRow_sum]

theorem rowRes_mem (r : List Nat) (v : Nat) (hv : v ∈ rowRes r) :
    v = 0 ∨ v ∈ r ∨ ∃ w, w ∈ r ∧ v = w * 2 := by
  unfold rowRes at hv
  rcases coverRow_mem _ v hv with hv | rfl
  · rcases mergeRowGo_mem _ false v hv with h0 | hmem | ⟨w, hw, hval⟩
    · exact Or.inl h0
    · rcases coverRow_mem r v hmem with h | h
      · exact Or.inr (Or.inl h)
      · exact Or.inl h
    · rcases coverRow_mem r w hw with h | rfl
      · exact Or.inr (Or.inr ⟨w, h, hval⟩)
      · exact Or.inl (by omega)
  · exact Or.inl rfl

theorem rowFlag_false_iff (r : List Nat) (h : r.length = 4) :
    rowFlag r = false ↔ (noGap r = true ∧ noPair r = true) := by
  unfold rowFlag
  rw [Bool.or_eq_false_iff]
  constructor
  · rintro ⟨hc, hm⟩
    have hg := (coverRow_snd_iff r).1 hc
    rw [coverRow_eq_self r h hg] at hm
    exact ⟨hg, (mergeRowGo_flag_iff r).1 hm⟩
  · rintro ⟨hg, hp⟩
    refine ⟨(coverRow_snd_iff r).2 hg, ?_⟩
    rw [coverRow_eq_self r h hg]
    exact (mergeRowGo_flag_iff r).2 hp

theorem rowFix (r : List Nat) (h : r.length = 4) :
    rowFlag r = false ↔ rowRes r = r := by
  constructor
  · intro hf
    unfold rowFlag at hf
    rw [Bool.or_eq_false_iff] at hf
    obtain ⟨hc, hm⟩ := hf
    have hcv : (coverRow r).1 = r := (coverRow_fix_iff r h).1 hc
    unfold rowRes
    rw [hcv] at hm ⊢
    rw [mergeRowGo_fix r hm, hcv]
  · intro hfix
    by_contra hf
    rw [Bool.not_eq_false, rowFlag, Bool.or_eq_true] at hf
    rcases hf with hc | hm
    · have hg : noGap r = false := by
        by_contra hng
        rw [Bool.not_eq_false] at hng
        have := (coverRow_snd_iff r).2 hng
        rw [this] at hc
        cases hc
      have hres : noGap (rowRes r) = true := noGap_coverRow _
      rw [hfix, hg] at hres
      cases hres
    · have hlt : countNZ (rowRes r) < countNZ r := by
        unfold rowRes
        rw [coverRow_countNZ]
        calc countNZ (mergeRowGo (coverRow r).1 false).1
            < countNZ (coverRow r).1 := mergeRowGo_countNZ_lt _ hm
          _ = countNZ r := coverRow_countNZ r
      rw [hfix] at hlt
      exact Nat.lt_irrefl _ hlt

theorem any_orDistrib {α : Type} (l : List α) (f g : α → Bool) :
    (l.any fun x => f x || g x) = (l.any f || l.any g) := by
  induction l with
  | nil => rfl
  | cons x rest ih =>
      simp only [List.any_cons, ih]
      cases f x <;> cases g x <;> cases rest.any f <;> cases rest.any g <;> rfl

theorem map_eq_self {α : Type} (l : List α) (f : α → α) :
    l.map f = l ↔ ∀ x ∈ l, f x = x := by
  induction l with
  | nil => simp
  | cons x rest ih => simp [ih, List.forall_mem_cons]

theorem cmVal_eq_map (M : Board) : cmVal M = M.map rowRes := by
  simp [cmVal, cover_up, merge, rowRes, List.map_map, Function.comp]

theorem cmFlag_eq_any (M : Board) : cmFlag M = M.any rowFlag := by
  simp only [cmFlag, merge, cover_up, List.any_map]
  rw [← any_orDistrib]
  rfl

theorem wf4_iff (B : Board) :
    WF4 B ↔ ∃ r0 r1 r2 r3 : List Nat, B = [r0, r1, r2, r3] ∧
      r0.length = 4 ∧ r1.length = 4 ∧ r2.length = 4 ∧ r3.length = 4 := by
  constructor
  · rintro ⟨hl, hr⟩
    rcases B with _ | ⟨r0, B⟩; · simp at hl
    rcases B with _ | ⟨r1, B⟩; · simp at hl
    rcases B with _ | ⟨r2, B⟩; · simp at hl
    rcases B with _ | ⟨r3, B⟩; · simp at hl
    rcases B with _ | ⟨r4, B⟩
    · exact ⟨r0, r1, r2, r3, rfl, hr r0 (by simp), hr r1 (by simp),
        hr r2 (by simp), hr r3 (by simp)⟩
    · simp [List.length_cons] at hl
  · rintro ⟨r0, r1, r2, r3, rfl, h0, h1, h2, h3⟩
    refine ⟨rfl, ?_⟩
    intro r hr
    simp only [List.mem_cons, List.not_mem_nil, or_false] at hr
    rcases hr with rfl | rfl | rfl | rfl <;> assumption

theorem len4_destruct (r : List Nat) (h : r.length = 4) :
    ∃ a b c d : Nat, r = [a, b, c, d] := by
  rcases r with _ | ⟨a, r⟩; · simp at h
  rcases r with _ | ⟨b, r⟩; · simp at h
  rcases r with _ | ⟨c, r⟩; · simp at h
  rcases r with _ | ⟨d, r⟩; · simp at h
  rcases r with _ | ⟨e, r⟩
  · exact ⟨a, b, c, d, rfl⟩
  · simp [List.length_cons] at h

theorem transpose_explicit (a b c d e f g h i j k l m n o p : Nat) :
    transpose [[a,b,c,d],[e,f,g,h],[i,j,k,l],[m,n,o,p]]
      = [[a,e,i,m],[b,f,j,n],[c,g,k,o],[d,h,l,p]] := rfl

theorem transpose_transpose (M : Board) (hM : WF4 M) :
    transpose (transpose M) = M := by
  obtain ⟨r0, r1, r2, r3, rfl, h0, h1, h2, h3⟩ := (wf4_iff M).1 hM
  obtain ⟨a, b, c, d, rfl⟩ := len4_destruct r0 h0
  obtain ⟨e, f, g, h, rfl⟩ := len4_destruct r1 h1
  obtain ⟨i, j, k, l, rfl⟩ := len4_destruct r2 h2
  obtain ⟨m, n, o, p, rfl⟩ := len4_destruct r3 h3
  rw [transpose_explicit, transpose_explicit]

theorem transpose_wf (M : Board) (hM : WF4 M) : WF4 (transpose M) := by
  obtain ⟨r0, r1, r2, r3, rfl, h0, h1, h2, h3⟩ := (wf4_iff M).1 hM
  obtain ⟨a, b, c, d, rfl⟩ := len4_destruct r0 h0
  obtain ⟨e, f, g, h, rfl⟩ := len4_destruct r1 h1
  obtain ⟨i, j, k, l, rfl⟩ := len4_destruct r2 h2
  obtain ⟨m, n, o, p, rfl⟩ := len4_destruct r3 h3
  rw [transpose_explicit]
  exact (wf4_iff _).2 ⟨_, _, _, _, rfl, rfl, rfl, rfl, rfl⟩

theorem reverse_reverse_board (M : Board) : reverse (reverse M) = M := by
  simp [reverse, List.map_map, Function.comp, List.reverse_reverse]

theorem reverse_wf (M : Board) (hM : WF4 M) : WF4 (reverse M) := by
  refine ⟨by simp [reverse, hM.1], ?_⟩
  intro r hr
  simp only [reverse, List.mem_map] at hr
  obtain ⟨s, hs, rfl⟩ := hr
  simp [hM.2 s hs]

theorem map_rowRes_wf (M : Board) (hM : WF4 M) : WF4 (M.map rowRes) := by
  refine ⟨by simp [hM.1], ?_⟩
  intro r hr
  simp only [List.mem_map] at hr
  obtain ⟨s, hs, rfl⟩ := hr
  exact rowRes_length s (hM.2 s hs)

theorem cm_false_iff (M : Board) (hM : WF4 M) :
    cmFlag M = false ↔ M.map rowRes = M := by
  rw [cmFlag_eq_any, List.any_eq_false, map_eq_self]
  simp only [Bool.not_eq_true]
  constructor
  · intro hf r hr
    exact (rowFix r (hM.2 r hr)).1 (hf r hr)
  · intro hf r hr
    exact (rowFix r (hM.2 r hr)).2 (hf r hr)

theorem left_false_iff (M : Board) (hM : WF4 M) :
    (left M).2 = false ↔ (left M).1 = M := by
  rw [left_eq]
  show cmFlag M = false ↔ cmVal M = M
  rw [cmVal_eq_map]
  exact cm_false_iff M hM

theorem right_false_iff (M : Board) (hM : WF4 M) :
    (right M).2 = false ↔ (right M).1 = M := by
  rw [right_eq]
  show cmFlag (reverse M) = false ↔ reverse (cmVal (reverse M)) = M
  rw [cmVal_eq_map, cm_false_iff (reverse M) (reverse_wf M hM)]
  constructor
  · intro hfix
    rw [hfix, reverse_reverse_board]
  · intro hrev
    have := congrArg reverse hrev
    rwa [reverse_reverse_board] at this
  
theorem up_false_iff (M : Board) (hM : WF4 M) :
    (up M).2 = false ↔ (up M).1 = M := by
  rw [up_eq]
  show cmFlag (transpose M) = false ↔ transpose (cmVal (transpose M)) = M
  rw [cmVal_eq_map, cm_false_iff (transpose M) (transpose_wf M hM)]
  constructor
  · intro hfix
    rw [hfix, transpose_transpose M hM]
  · intro htr
    have h2 := congrArg transpose htr
    rwa [transpose_transpose _
      (map_rowRes_wf (transpose M) (transpose_wf M hM))] at h2

theorem down_false_iff (M : Board) (hM : WF4 M) :
    (down M).2 = false ↔ (down M).1 = M := by
  rw [down_eq]
  have hTwf := transpose_wf M hM
  have hRTwf := reverse_wf _ hTwf
  have hXwf := map_rowRes_wf _ hRTwf
  show cmFlag (reverse (transpose M)) = false ↔
    transpose (reverse (cmVal (reverse (transpose M)))) = M
  rw [cmVal_eq_map, cm_false_iff _ hRTwf]
  constructor
  · intro hfix
    rw [hfix, reverse_reverse_board, transpose_transpose M hM]
  · intro htr
    have h2 := congrArg transpose htr
    rw [transpose_transpose _ (reverse_wf _ hXwf)] at h2
    have h3 := congrArg reverse h2
    rwa [reverse_reverse_board] at h3

theorem bool_true_iff_not (b : Bool) (p : Prop) (h : b = false ↔ p) :
    b = true ↔ ¬ p := by
  cases b <;> simp_all

/-! ### Score preservation -/

theorem score_map_rowRes (M : Board) :
    calculate_score (M.map rowRes) = calculate_score M := by
  induction M with
  | nil => rfl
  | cons r rest ih =>
      simp only [calculate_score, List.map_cons, List.sum_cons] at ih ⊢
      rw [rowRes_sum, ih]

theorem score_reverse (M : Board) :
    calculate_score (reverse M) = calculate_score M := by
  induction M with
  | nil => rfl
  | cons r rest ih =>
      simp only [calculate_score, reverse, List.map_cons, List.sum_cons] at ih ⊢
      rw [List.sum_reverse, ih]

theorem score_transpose (M : Board) (hM : WF4 M) :
    calculate_score (transpose M) = calculate_score M := by
  obtain ⟨r0, r1, r2, r3, rfl, h0, h1, h2, h3⟩ := (wf4_iff M).1 hM
  obtain ⟨a, b, c, d, rfl⟩ := len4_destruct r0 h0
  obtain ⟨e, f, g, h, rfl⟩ := len4_destruct r1 h1
  obtain ⟨i, j, k, l, rfl⟩ := len4_destruct r2 h2
  obtain ⟨m, n, o, p, rfl⟩ := len4_destruct r3 h3
  rw [transpose_explicit]
  simp only [calculate_score, List.map_cons, List.map_nil, List.sum_cons,
    List.sum_nil]
  omega

theorem score_left (B : Board) :
    calculate_score (left B).1 = calculate_score B := by
  show calculate_score (cmVal B) = calculate_score B
  rw [cmVal_eq_map]
  exact score_map_rowRes B

theorem score_right (B : Board) :
    calculate_score (right B).1 = calculate_score B := by
  show calculate_score (reverse (cmVal (reverse B))) = calculate_score B
  rw [score_reverse, cmVal_eq_map, score_map_rowRes, score_reverse]

theorem score_up (B : Board) (hB : WF4 B) :
    calculate_score (up B).1 = calculate_score B := by
  show calculate_score (transpose (cmVal (transpose B))) = calculate_score B
  have hTwf := transpose_wf B hB
  rw [cmVal_eq_map, score_transpose _ (map_rowRes_wf _ hTwf),
    score_map_rowRes, score_transpose B hB]

theorem score_down (B : Board) (hB : WF4 B) :
    calculate_score (down B).1 = calculate_score B := by
  show calculate_score (transpose (reverse (cmVal (reverse (transpose B)))))
      = calculate_score B
  have hTwf := transpose_wf B hB
  have hRTwf := reverse_wf _ hTwf
  rw [cmVal_eq_map, score_transpose _ (reverse_wf _ (map_rowRes_wf _ hRTwf)),
    score_reverse, score_map_rowRes, score_reverse, score_transpose B hB]

/-! ### Rows after a move are compacted -/

theorem noGap_rowRes (r : List Nat) : noGap (rowRes r) = true :=
  noGap_coverRow _

theorem cover_up_snd_false (X : Board) :
    (cover_up X).2 = false ↔ ∀ r ∈ X, noGap r = true := by
  show (X.any fun r => (coverRow r).2) = false ↔ _
  rw [List.any_eq_false]
  simp only [Bool.not_eq_true]
  constructor
  · intro hf r hr
    exact (coverRow_snd_iff r).1 (hf r hr)
  · intro hf r hr
    exact (coverRow_snd_iff r).2 (hf r hr)

theorem cover_up_map_rowRes (M : Board) :
    (cover_up (M.map rowRes)).2 = false := by
  rw [cover_up_snd_false]
  intro r hr
  obtain ⟨s, _, rfl⟩ := List.mem_map.1 hr
  exact noGap_rowRes s

/-! ### The spec's slide-and-merge description of a LEFT move -/

/-- The spec's compaction pass: nonzero cells keep their order and move
to the left, zeros fill the remainder of the 4-cell row. -/
def compactLeftSpec (row : List Nat) : List Nat :=
  let nz := row.filter fun x => decide (x ≠ 0)
  nz ++ List.replicate (4 - nz.length) 0

/-- The spec's single merge scan, helper with the current left cell. -/
def mergeOnceCoreSpec (head : Nat) : List Nat → List Nat
  | [] => [head]
  | b :: rest =>
    if head = b ∧ head ≠ 0 then head * 2 :: mergeOnceCoreSpec 0 rest
    else head :: mergeOnceCoreSpec b rest

/-- The spec's single left-to-right merge scan: each adjacent equal
nonzero pair merges exactly once (left cell doubled, right cell zeroed),
and the zeroed cell is what the scan looks at next. -/
def mergeOnceSpec : List Nat → List Nat
  | [] => []
  | a :: rest => mergeOnceCoreSpec a rest

/-- The spec's per-row LEFT operator: compact, merge once, compact. -/
def slideAndMergeLeftSpec (row : List Nat) : List Nat :=
  compactLeftSpec (mergeOnceSpec (compactLeftSpec row))

theorem coverRowGo_filter (r : List Nat) :
    ∀ j c, (coverRowGo r j c).1 = r.filter fun x => decide (x ≠ 0) := by
  induction r with
  | nil => intro j c; rfl
  | cons x rest ih =>
      intro j c
      by_cases hx : x = 0
      · rw [coverRowGo_zero x rest hx, ih]
        simp [List.filter_cons, hx]
      · rw [coverRowGo_nz x rest hx]
        simp [List.filter_cons, hx, ih]

theorem coverRow_eq_compactSpec (r : List Nat) :
    (coverRow r).1 = compactLeftSpec r := by
  show (coverRowGo r 0 0).1 ++ List.replicate (GRID_LEN - (coverRowGo r 0 0).1.length) 0
      = compactLeftSpec r
  rw [coverRowGo_filter]
  rfl

theorem mergeRowCore_eq_spec (l : List Nat) :
    ∀ h d, (mergeRowCore h l d).1 = mergeOnceCoreSpec h l := by
  induction l with
  | nil => intro h d; rfl
  | cons b rest ih =>
      intro h d
      by_cases hm : h = b ∧ h ≠ 0
      · rw [mergeRowCore_cons_merge h b rest d hm]
        simp only [mergeOnceCoreSpec, if_pos hm]
        rw [ih 0 true]
      · rw [mergeRowCore_cons_skip h b rest d hm]
        simp only [mergeOnceCoreSpec, if_neg hm]
        rw [ih b d]

theorem mergeRowGo_eq_spec (r : List Nat) (d : Bool) :
    (mergeRowGo r d).1 = mergeOnceSpec r := by
  cases r with
  | nil => rfl
  | cons a rest => exact mergeRowCore_eq_spec rest a d

theorem rowRes_eq_spec (r : List Nat) : rowRes r = slideAndMergeLeftSpec r := by
  unfold rowRes slideAndMergeLeftSpec
  rw [coverRow_eq_compactSpec, mergeRowGo_eq_spec, coverRow_eq_compactSpec]

/-! ### Claim theorems: C1, C3, C4, C7, C10 -/

/-- C1: on every board, the LEFT move operator transforms each row
independently by compacting the nonzero cells leftward (order
preserved), then scanning left-to-right and merging each adjacent equal
nonzero pair exactly once (left cell doubled, right cell zeroed), then
compacting again; a tile participates in at most one merge per move, so
merges never cascade: `[2,2,4,0]` yields `[4,4,0,0]`, not `[8,0,0,0]`. -/
theorem c1_left_slides_and_merges_once :
    (∀ B : Board, (left B).1 = B.map slideAndMergeLeftSpec) ∧
    (left [[2,2,4,0],[0,0,0,0],[0,0,0,0],[0,0,0,0]]).1
      = [[4,4,0,0],[0,0,0,0],[0,0,0,0],[0,0,0,0]] ∧
    (left [[2,2,4,0],[0,0,0,0],[0,0,0,0],[0,0,0,0]]).1
      ≠ [[8,0,0,0],[0,0,0,0],[0,0,0,0],[0,0,0,0]] := by
  refine ⟨?_, by decide, by decide⟩
  intro B
  show cmVal B = B.map slideAndMergeLeftSpec
  rw [cmVal_eq_map]
  exact List.map_congr_left fun r _ => rowRes_eq_spec r

/-- C3 counterexample: the board `[[2,2,0,0],0,0,0]` changes under LEFT
(the two 2s merge) yet the total sum is unchanged, contradicting the
claim that the sums are equal if and only if `changed=false`. -/
theorem c3_counterexample :
    (left [[2,2,0,0],[0,0,0,0],[0,0,0,0],[0,0,0,0]]).2 = true ∧
    calculate_score (left [[2,2,0,0],[0,0,0,0],[0,0,0,0],[0,0,0,0]]).1
      = calculate_score [[2,2,0,0],[0,0,0,0],[0,0,0,0],[0,0,0,0]] := by
  constructor
  · decide
  · decide

/-- C3 (amended): every move operator preserves the total of all cell
values exactly (a merge turns `a, a` into `2a, 0`), so the sum after a
move is always `≥` — indeed `=` — the sum before, whether or not the
move reports `changed=true`. -/
theorem c3_move_preserves_score (B : Board) (hB : WF4 B) :
    calculate_score (up B).1 = calculate_score B ∧
    calculate_score (down B).1 = calculate_score B ∧
    calculate_score (left B).1 = calculate_score B ∧
    calculate_score (right B).1 = calculate_score B :=
  ⟨score_up B hB, score_down B hB, score_left B, score_right B⟩

/-- Witness for C3 at a concrete board. -/
theorem c3_move_preserves_score_witness :
    WF4 [[2,2,0,0],[4,0,0,0],[0,0,0,0],[0,0,2,2]] ∧
    (calculate_score (up [[2,2,0,0],[4,0,0,0],[0,0,0,0],[0,0,2,2]]).1
        = calculate_score [[2,2,0,0],[4,0,0,0],[0,0,0,0],[0,0,2,2]] ∧
     calculate_score (down [[2,2,0,0],[4,0,0,0],[0,0,0,0],[0,0,2,2]]).1
        = calculate_score [[2,2,0,0],[4,0,0,0],[0,0,0,0],[0,0,2,2]] ∧
     calculate_score (left [[2,2,0,0],[4,0,0,0],[0,0,0,0],[0,0,2,2]]).1
        = calculate_score [[2,2,0,0],[4,0,0,0],[0,0,0,0],[0,0,2,2]] ∧
     calculate_score (right [[2,2,0,0],[4,0,0,0],[0,0,0,0],[0,0,2,2]]).1
        = calculate_score [[2,2,0,0],[4,0,0,0],[0,0,0,0],[0,0,2,2]]) :=
  ⟨by decide, c3_move_preserves_score _ (by decide)⟩

/-- C4 counterexample: LEFT applied to `[[2,2,4,0],0,0,0]` gives
`[[4,4,0,0],0,0,0]`, and a second LEFT (no spawn in between) merges the
two 4s, so the second application reports `changed=true`. -/
theorem c4_counterexample :
    (left (left [[2,2,4,0],[0,0,0,0],[0,0,0,0],[0,0,0,0]]).1).2 = true := by
  decide

/-- C4 (amended): after a move the board is fully compacted in the moved
direction, so re-applying the same move performs no compaction shift
(the `cover_up` pass of the second application reports `done=false`);
the second application can still change the board, but only through
merges of pairs created by the first move. -/
theorem c4_second_pass_no_shift (B : Board) (hB : WF4 B) :
    (cover_up (left B).1).2 = false ∧
    (cover_up (reverse (right B).1)).2 = false ∧
    (cover_up (transpose (up B).1)).2 = false ∧
    (cover_up (reverse (transpose (down B).1))).2 = false := by
  have hTwf := transpose_wf B hB
  have hRTwf := reverse_wf _ hTwf
  refine ⟨?_, ?_, ?_, ?_⟩
  · show (cover_up (cmVal B)).2 = false
    rw [cmVal_eq_map]
    exact cover_up_map_rowRes B
  · show (cover_up (reverse (reverse (cmVal (reverse B))))).2 = false
    rw [reverse_reverse_board, cmVal_eq_map]
    exact cover_up_map_rowRes (reverse B)
  · show (cover_up (transpose (transpose (cmVal (transpose B))))).2 = false
    rw [cmVal_eq_map, transpose_transpose _ (map_rowRes_wf _ hTwf)]
    exact cover_up_map_rowRes (transpose B)
  · show (cover_up (reverse (transpose (transpose
        (reverse (cmVal (reverse (transpose B)))))))).2 = false
    rw [cmVal_eq_map, transpose_transpose _ (reverse_wf _ (map_rowRes_wf _ hRTwf)),
      reverse_reverse_board]
    exact cover_up_map_rowRes (reverse (transpose B))

/-- Witness for C4 at a concrete board. -/
theorem c4_second_pass_no_shift_witness :
    WF4 [[2,2,4,0],[0,0,0,0],[0,0,0,0],[0,0,0,0]] ∧
    ((cover_up (left [[2,2,4,0],[0,0,0,0],[0,0,0,0],[0,0,0,0]]).1).2 = false ∧
     (cover_up (reverse (right [[2,2,4,0],[0,0,0,0],[0,0,0,0],[0,0,0,0]]).1)).2 = false ∧
     (cover_up (transpose (up [[2,2,4,0],[0,0,0,0],[0,0,0,0],[0,0,0,0]]).1)).2 = false ∧
     (cover_up (reverse (transpose (down [[2,2,4,0],[0,0,0,0],[0,0,0,0],[0,0,0,0]]).1))).2 = false) :=
  ⟨by decide, c4_second_pass_no_shift _ (by decide)⟩

/-- C7 counterexample: on `[[2,4,8,16],0,0,0]` the computed legal-move
set does not contain LEFT (the only nonempty row is full and packed
against the left edge with no merge available), so it is not
`{DOWN, LEFT, RIGHT}` as claimed. -/
theorem c7_counterexample :
    ((get_valid_moves [[2,4,8,16],[0,0,0,0],[0,0,0,0],[0,0,0,0]]).contains "LEFT")
      = false := by
  decide

/-- C7 (amended): on `[[2,4,8,16],0,0,0]` the legal-move set is exactly
`{DOWN}`: UP is illegal (row packed against the top, no vertical merge),
and LEFT and RIGHT are also illegal because the row has no empty cell
and no adjacent equal pair. -/
theorem c7_valid_moves_down_only :
    get_valid_moves [[2,4,8,16],[0,0,0,0],[0,0,0,0],[0,0,0,0]] = ["DOWN"] := by
  decide

/-- C10: for every well-formed board and every direction, the move
operator's `changed` flag is exact — it is true exactly when the
returned board differs from the input board. -/
theorem c10_changed_iff_board_differs (B : Board) (hB : WF4 B) :
    ((up B).2 = true ↔ (up B).1 ≠ B) ∧
    ((down B).2 = true ↔ (down B).1 ≠ B) ∧
    ((left B).2 = true ↔ (left B).1 ≠ B) ∧
    ((right B).2 = true ↔ (right B).1 ≠ B) :=
  ⟨bool_true_iff_not _ _ (up_false_iff B hB),
   bool_true_iff_not _ _ (down_false_iff B hB),
   bool_true_iff_not _ _ (left_false_iff B hB),
   bool_true_iff_not _ _ (right_false_iff B hB)⟩

/-- Witness for C10 at a concrete board. -/
theorem c10_changed_iff_board_differs_witness :
    WF4 [[2,4,8,16],[0,0,0,0],[0,0,0,0],[2,2,0,0]] ∧
    (((up [[2,4,8,16],[0,0,0,0],[0,0,0,0],[2,2,0,0]]).2 = true ↔
        (up [[2,4,8,16],[0,0,0,0],[0,0,0,0],[2,2,0,0]]).1 ≠ [[2,4,8,16],[0,0,0,0],[0,0,0,0],[2,2,0,0]]) ∧
     ((down [[2,4,8,16],[0,0,0,0],[0,0,0,0],[2,2,0,0]]).2 = true ↔
        (down [[2,4,8,16],[0,0,0,0],[0,0,0,0],[2,2,0,0]]).1 ≠ [[2,4,8,16],[0,0,0,0],[0,0,0,0],[2,2,0,0]]) ∧
     ((left [[2,4,8,16],[0,0,0,0],[0,0,0,0],[2,2,0,0]]).2 = true ↔
        (left [[2,4,8,16],[0,0,0,0],[0,0,0,0],[2,2,0,0]]).1 ≠ [[2,4,8,16],[0,0,0,0],[0,0,0,0],[2,2,0,0]]) ∧
     ((right [[2,4,8,16],[0,0,0,0],[0,0,0,0],[2,2,0,0]]).2 = true ↔
        (right [[2,4,8,16],[0,0,0,0],[0,0,0,0],[2,2,0,0]]).1 ≠ [[2,4,8,16],[0,0,0,0],[0,0,0,0],[2,2,0,0]])) :=
  ⟨by decide, c10_changed_iff_board_differs _ (by decide)⟩

/-! ### Characterizing the legal-move set and game_state on 4x4 boards -/

theorem valid_moves_empty_iff (B : Board) :
    get_valid_moves B = [] ↔
      ((up B).2 = false ∧ (down B).2 = false ∧
       (left B).2 = false ∧ (right B).2 = false) := by
  unfold get_valid_moves
  cases hu : (up B).2 <;> cases hd : (down B).2 <;>
    cases hl : (left B).2 <;> cases hr : (right B).2 <;>
    simp [List.filter_cons, hu, hd, hl, hr]

theorem left_snd_any (B : Board) : (left B).2 = B.any rowFlag :=
  cmFlag_eq_any B

theorem right_snd_any (B : Board) : (right B).2 = (reverse B).any rowFlag :=
  cmFlag_eq_any (reverse B)

theorem up_snd_any (B : Board) : (up B).2 = (transpose B).any rowFlag :=
  cmFlag_eq_any (transpose B)

theorem down_snd_any (B : Board) :
    (down B).2 = (reverse (transpose B)).any rowFlag :=
  cmFlag_eq_any (reverse (transpose B))

theorem reverse_explicit (a b c d e f g h i j k l m n o p : Nat) :
    reverse [[a,b,c,d],[e,f,g,h],[i,j,k,l],[m,n,o,p]]
      = [[d,c,b,a],[h,g,f,e],[l,k,j,i],[p,o,n,m]] := rfl

theorem any_rowFlag_false4 (r0 r1 r2 r3 : List Nat) :
    (([r0, r1, r2, r3] : Board).any rowFlag) = false ↔
      (rowFlag r0 = false ∧ rowFlag r1 = false ∧
       rowFlag r2 = false ∧ rowFlag r3 = false) := by
  simp only [List.any_cons, List.any_nil, Bool.or_eq_false_iff, Bool.or_false,
    and_assoc]

theorem noGap4_iff (a b c d : Nat) :
    noGap [a, b, c, d] = true ↔
      ((a = 0 → b = 0 ∧ c = 0 ∧ d = 0) ∧ (b = 0 → c = 0 ∧ d = 0) ∧
       (c = 0 → d = 0)) := by
  by_cases ha : a = 0 <;> by_cases hb : b = 0 <;> by_cases hc : c = 0 <;>
    by_cases hd : d = 0 <;>
    simp [noGap, all0, ha, hb, hc, hd]

theorem noPair4_iff (a b c d : Nat) :
    noPair [a, b, c, d] = true ↔
      (¬(a = b ∧ a ≠ 0) ∧ ¬(b = c ∧ b ≠ 0) ∧ ¬(c = d ∧ c ≠ 0)) := by
  simp only [noPair, noPairCore]
  by_cases h1 : a = b ∧ a ≠ 0 <;> by_cases h2 : b = c ∧ b ≠ 0 <;>
    by_cases h3 : c = d ∧ c ≠ 0 <;>
    simp [h1, h2, h3] <;> tauto

theorem rowFlag_false_iff4 (a b c d : Nat) :
    rowFlag [a, b, c, d] = false ↔
      (((a = 0 → b = 0 ∧ c = 0 ∧ d = 0) ∧ (b = 0 → c = 0 ∧ d = 0) ∧
        (c = 0 → d = 0)) ∧
       (¬(a = b ∧ a ≠ 0) ∧ ¬(b = c ∧ b ≠ 0) ∧ ¬(c = d ∧ c ≠ 0))) := by
  rw [rowFlag_false_iff _ (by rfl), noGap4_iff, noPair4_iff]

set_option maxHeartbeats 2000000 in
theorem game_state_lose_iff (a b c d e f g h i j k l m n o p : Nat) :
    game_state [[a,b,c,d],[e,f,g,h],[i,j,k,l],[m,n,o,p]] = "lose" ↔
      (((a ≠ 2048 ∧ b ≠ 2048 ∧ c ≠ 2048 ∧ d ≠ 2048) ∧
        (e ≠ 2048 ∧ f ≠ 2048 ∧ g ≠ 2048 ∧ h ≠ 2048) ∧
        (i ≠ 2048 ∧ j ≠ 2048 ∧ k ≠ 2048 ∧ l ≠ 2048) ∧
        m ≠ 2048 ∧ n ≠ 2048 ∧ o ≠ 2048 ∧ p ≠ 2048) ∧
       ((a ≠ 0 ∧ b ≠ 0 ∧ c ≠ 0 ∧ d ≠ 0) ∧
        (e ≠ 0 ∧ f ≠ 0 ∧ g ≠ 0 ∧ h ≠ 0) ∧
        (i ≠ 0 ∧ j ≠ 0 ∧ k ≠ 0 ∧ l ≠ 0) ∧
        m ≠ 0 ∧ n ≠ 0 ∧ o ≠ 0 ∧ p ≠ 0) ∧
       (((e ≠ a ∧ b ≠ a) ∧ (f ≠ b ∧ c ≠ b) ∧ g ≠ c ∧ d ≠ c) ∧
        ((i ≠ e ∧ f ≠ e) ∧ (j ≠ f ∧ g ≠ f) ∧ k ≠ g ∧ h ≠ g) ∧
        (m ≠ i ∧ j ≠ i) ∧ (n ≠ j ∧ k ≠ j) ∧ o ≠ k ∧ l ≠ k) ∧
       (m ≠ n ∧ n ≠ o ∧ o ≠ p) ∧
       (d ≠ h ∧ h ≠ l ∧ l ≠ p)) := by
  simp only [game_state, getCell]
  norm_num [List.range_succ, List.any_append, List.any_cons, List.any_nil,
    List.getD, List.getElem?_cons_zero, List.getElem?_cons_succ]
  split_ifs with h1 h2 h3 h4 h5
  · exact iff_of_false (by decide) fun hR => by tauto
  · exact iff_of_false (by decide) fun hR => by tauto
  · exact iff_of_false (by decide) fun hR => by tauto
  · exact iff_of_false (by decide) fun hR => by tauto
  · exact iff_of_false (by decide) fun hR => by tauto
  · exact iff_of_true rfl (by
      push_neg at h1 h2 h3 h4 h5
      exact ⟨h1, h2, h3, h4, h5⟩)

/-! ### Combinatorics for the lose-state equivalence -/

theorem row_dichotomy (a b c d : Nat)
    (h1 : (a = 0 → b = 0 ∧ c = 0 ∧ d = 0) ∧ (b = 0 → c = 0 ∧ d = 0) ∧
      (c = 0 → d = 0))
    (h2 : (d = 0 → c = 0 ∧ b = 0 ∧ a = 0) ∧ (c = 0 → b = 0 ∧ a = 0) ∧
      (b = 0 → a = 0)) :
    (a = 0 ∧ b = 0 ∧ c = 0 ∧ d = 0) ∨ (a ≠ 0 ∧ b ≠ 0 ∧ c ≠ 0 ∧ d ≠ 0) := by
  omega

set_option maxHeartbeats 3000000 in
theorem mix16 (a b c d e f g h i j k l m n o p : Nat)
    (hr0 : (a = 0 ∧ b = 0 ∧ c = 0 ∧ d = 0) ∨ (a ≠ 0 ∧ b ≠ 0 ∧ c ≠ 0 ∧ d ≠ 0))
    (hr1 : (e = 0 ∧ f = 0 ∧ g = 0 ∧ h = 0) ∨ (e ≠ 0 ∧ f ≠ 0 ∧ g ≠ 0 ∧ h ≠ 0))
    (hr2 : (i = 0 ∧ j = 0 ∧ k = 0 ∧ l = 0) ∨ (i ≠ 0 ∧ j ≠ 0 ∧ k ≠ 0 ∧ l ≠ 0))
    (hr3 : (m = 0 ∧ n = 0 ∧ o = 0 ∧ p = 0) ∨ (m ≠ 0 ∧ n ≠ 0 ∧ o ≠ 0 ∧ p ≠ 0))
    (hc0 : (a = 0 ∧ e = 0 ∧ i = 0 ∧ m = 0) ∨ (a ≠ 0 ∧ e ≠ 0 ∧ i ≠ 0 ∧ m ≠ 0))
    (hc1 : (b = 0 ∧ f = 0 ∧ j = 0 ∧ n = 0) ∨ (b ≠ 0 ∧ f ≠ 0 ∧ j ≠ 0 ∧ n ≠ 0))
    (hc2 : (c = 0 ∧ g = 0 ∧ k = 0 ∧ o = 0) ∨ (c ≠ 0 ∧ g ≠ 0 ∧ k ≠ 0 ∧ o ≠ 0))
    (hc3 : (d = 0 ∧ h = 0 ∧ l = 0 ∧ p = 0) ∨ (d ≠ 0 ∧ h ≠ 0 ∧ l ≠ 0 ∧ p ≠ 0))
    (hnz : ¬(a = 0 ∧ b = 0 ∧ c = 0 ∧ d = 0 ∧ e = 0 ∧ f = 0 ∧ g = 0 ∧ h = 0 ∧
      i = 0 ∧ j = 0 ∧ k = 0 ∧ l = 0 ∧ m = 0 ∧ n = 0 ∧ o = 0 ∧ p = 0)) :
    a ≠ 0 ∧ b ≠ 0 ∧ c ≠ 0 ∧ d ≠ 0 ∧ e ≠ 0 ∧ f ≠ 0 ∧ g ≠ 0 ∧ h ≠ 0 ∧
      i ≠ 0 ∧ j ≠ 0 ∧ k ≠ 0 ∧ l ≠ 0 ∧ m ≠ 0 ∧ n ≠ 0 ∧ o ≠ 0 ∧ p ≠ 0 := by
  omega

theorem pair_ne (x y : Nat) (hx : x ≠ 0) (hp : ¬(x = y ∧ x ≠ 0)) : y ≠ x :=
  fun hyx => hp ⟨hyx.symm, hx⟩

theorem pair_ne' (x y : Nat) (hx : x ≠ 0) (hp : ¬(x = y ∧ x ≠ 0)) : x ≠ y :=
  fun hxy => hp ⟨hxy, hx⟩

theorem pair_not1 (x y : Nat) (hne : x ≠ y) : ¬(x = y ∧ x ≠ 0) :=
  fun hc => hne hc.1

theorem pair_not2 (x y : Nat) (hne : y ≠ x) : ¬(x = y ∧ x ≠ 0) :=
  fun hc => hne hc.1.symm

/-! ### Claim C2 -/

/-- C2 counterexample: on a full board with no adjacent equal pair that
contains a 2048 tile, the legal-move set is empty but the classifier
returns "win", not "lose" — so empty legal moves is not equivalent to
LOSE as claimed. -/
theorem c2_counterexample :
    get_valid_moves [[2,4,8,16],[32,64,128,256],[512,1024,2048,4096],
      [8192,16384,32768,2]] = [] ∧
    game_state [[2,4,8,16],[32,64,128,256],[512,1024,2048,4096],
      [8192,16384,32768,2]] = "win" ∧
    game_state [[2,4,8,16],[32,64,128,256],[512,1024,2048,4096],
      [8192,16384,32768,2]] ≠ "lose" := by
  refine ⟨by decide, by decide, by decide⟩

set_option maxHeartbeats 2000000 in
/-- C2 (amended): for every well-formed 4x4 board that has at least one
nonzero tile and no tile equal to 2048, the legal-move set is empty if
and only if the game-state classifier returns "lose".  (The two excluded
cases genuinely break the unrestricted claim: the all-zero board has no
legal move yet classifies as "not over", and a stuck board holding a
2048 tile has no legal move yet classifies as "win".) -/
theorem c2_no_moves_iff_lose (B : Board) (hB : WF4 B)
    (hnz : ∃ r ∈ B, ∃ v ∈ r, v ≠ 0)
    (hnw : ∀ r ∈ B, ∀ v ∈ r, v ≠ 2048) :
    (get_valid_moves B = [] ↔ game_state B = "lose") := by
  obtain ⟨r0, r1, r2, r3, rfl, h0, h1, h2, h3⟩ := (wf4_iff B).1 hB
  obtain ⟨a, b, c, d, rfl⟩ := len4_destruct r0 h0
  obtain ⟨e, f, g, h, rfl⟩ := len4_destruct r1 h1
  obtain ⟨i, j, k, l, rfl⟩ := len4_destruct r2 h2
  obtain ⟨m, n, o, p, rfl⟩ := len4_destruct r3 h3
  have hnz0 : ¬(a = 0 ∧ b = 0 ∧ c = 0 ∧ d = 0 ∧ e = 0 ∧ f = 0 ∧ g = 0 ∧ h = 0 ∧
      i = 0 ∧ j = 0 ∧ k = 0 ∧ l = 0 ∧ m = 0 ∧ n = 0 ∧ o = 0 ∧ p = 0) := by
    intro hz
    obtain ⟨z1, z2, z3, z4, z5, z6, z7, z8, z9, z10, z11, z12,
      z13, z14, z15, z16⟩ := hz
    subst z1 z2 z3 z4 z5 z6 z7 z8 z9 z10 z11 z12 z13 z14 z15 z16
    obtain ⟨r, hr, v, hv, hvnz⟩ := hnz
    apply hvnz
    simp only [List.mem_cons, List.not_mem_nil, or_false] at hr
    rcases hr with rfl | rfl | rfl | rfl <;> simpa using hv
  have q0 : ∀ v ∈ ([a, b, c, d] : List Nat), v ≠ 2048 := hnw _ (by simp)
  have q1 : ∀ v ∈ ([e, f, g, h] : List Nat), v ≠ 2048 := hnw _ (by simp)
  have q2 : ∀ v ∈ ([i, j, k, l] : List Nat), v ≠ 2048 := hnw _ (by simp)
  have q3 : ∀ v ∈ ([m, n, o, p] : List Nat), v ≠ 2048 := hnw _ (by simp)
  simp only [valid_moves_empty_iff, up_snd_any, down_snd_any, left_snd_any,
    right_snd_any, transpose_explicit, reverse_explicit, any_rowFlag_false4,
    rowFlag_false_iff4, game_state_lose_iff]
  constructor
  · rintro ⟨⟨hu0, hu1, hu2, hu3⟩, ⟨hd0, hd1, hd2, hd3⟩,
      ⟨hl0, hl1, hl2, hl3⟩, ⟨hr0, hr1, hr2, hr3⟩⟩
    have dr0 := row_dichotomy a b c d hl0.1 hr0.1
    have dr1 := row_dichotomy e f g h hl1.1 hr1.1
    have dr2 := row_dichotomy i j k l hl2.1 hr2.1
    have dr3 := row_dichotomy m n o p hl3.1 hr3.1
    have dc0 := row_dichotomy a e i m hu0.1 hd0.1
    have dc1 := row_dichotomy b f j n hu1.1 hd1.1
    have dc2 := row_dichotomy c g k o hu2.1 hd2.1
    have dc3 := row_dichotomy d h l p hu3.1 hd3.1
    obtain ⟨nA, nB, nC, nD, nE, nF, nG, nH, nI, nJ, nK, nL, nM, nN, nO, nP⟩ :=
      mix16 a b c d e f g h i j k l m n o p dr0 dr1 dr2 dr3 dc0 dc1 dc2 dc3 hnz0
    exact ⟨⟨⟨q0 a (by simp), q0 b (by simp), q0 c (by simp), q0 d (by simp)⟩,
      ⟨q1 e (by simp), q1 f (by simp), q1 g (by simp), q1 h (by simp)⟩,
      ⟨q2 i (by simp), q2 j (by simp), q2 k (by simp), q2 l (by simp)⟩,
      q3 m (by simp), q3 n (by simp), q3 o (by simp), q3 p (by simp)⟩,
      ⟨⟨nA, nB, nC, nD⟩, ⟨nE, nF, nG, nH⟩, ⟨nI, nJ, nK, nL⟩, nM, nN, nO, nP⟩,
      ⟨⟨⟨pair_ne a e nA hu0.2.1, pair_ne a b nA hl0.2.1⟩,
        ⟨pair_ne b f nB hu1.2.1, pair_ne b c nB hl0.2.2.1⟩,
        pair_ne c g nC hu2.2.1, pair_ne c d nC hl0.2.2.2⟩,
       ⟨⟨pair_ne e i nE hu0.2.2.1, pair_ne e f nE hl1.2.1⟩,
        ⟨pair_ne f j nF hu1.2.2.1, pair_ne f g nF hl1.2.2.1⟩,
        pair_ne g k nG hu2.2.2.1, pair_ne g h nG hl1.2.2.2⟩,
       ⟨pair_ne i m nI hu0.2.2.2, pair_ne i j nI hl2.2.1⟩,
       ⟨pair_ne j n nJ hu1.2.2.2, pair_ne j k nJ hl2.2.2.1⟩,
       pair_ne k o nK hu2.2.2.2, pair_ne k l nK hl2.2.2.2⟩,
      ⟨pair_ne' m n nM hl3.2.1, pair_ne' n o nN hl3.2.2.1,
       pair_ne' o p nO hl3.2.2.2⟩,
      ⟨pair_ne' d h nD hu3.2.1, pair_ne' h l nH hu3.2.2.1,
       pair_ne' l p nL hu3.2.2.2⟩⟩
  · rintro ⟨-, ⟨⟨nA, nB, nC, nD⟩, ⟨nE, nF, nG, nH⟩, ⟨nI, nJ, nK, nL⟩,
      nM, nN, nO, nP⟩,
      ⟨⟨⟨hea, hba⟩, ⟨hfb, hcb⟩, hgc, hdc⟩,
       ⟨⟨hie, hfe⟩, ⟨hjf, hgf⟩, hkg, hhg⟩,
       ⟨hmi, hji⟩, ⟨hnj, hkj⟩, hok, hlk⟩,
      ⟨hmn, hno, hop⟩, ⟨hdh, hhl, hlp⟩⟩
    exact ⟨⟨⟨⟨fun hz => absurd hz nA, fun hz => absurd hz nE,
          fun hz => absurd hz nI⟩,
        pair_not2 a e hea, pair_not2 e i hie, pair_not2 i m hmi⟩,
       ⟨⟨fun hz => absurd hz nB, fun hz => absurd hz nF,
          fun hz => absurd hz nJ⟩,
        pair_not2 b f hfb, pair_not2 f j hjf, pair_not2 j n hnj⟩,
       ⟨⟨fun hz => absurd hz nC, fun hz => absurd hz nG,
          fun hz => absurd hz nK⟩,
        pair_not2 c g hgc, pair_not2 g k hkg, pair_not2 k o hok⟩,
       ⟨⟨fun hz => absurd hz nD, fun hz => absurd hz nH,
          fun hz => absurd hz nL⟩,
        pair_not1 d h hdh, pair_not1 h l hhl, pair_not1 l p hlp⟩⟩,
      ⟨⟨⟨fun hz => absurd hz nM, fun hz => absurd hz nI,
          fun hz => absurd hz nE⟩,
        pair_not1 m i hmi, pair_not1 i e hie, pair_not1 e a hea⟩,
       ⟨⟨fun hz => absurd hz nN, fun hz => absurd hz nJ,
          fun hz => absurd hz nF⟩,
        pair_not1 n j hnj, pair_not1 j f hjf, pair_not1 f b hfb⟩,
       ⟨⟨fun hz => absurd hz nO, fun hz => absurd hz nK,
          fun hz => absurd hz nG⟩,
        pair_not1 o k hok, pair_not1 k g hkg, pair_not1 g c hgc⟩,
       ⟨⟨fun hz => absurd hz nP, fun hz => absurd hz nL,
          fun hz => absurd hz nH⟩,
        pair_not2 p l hlp, pair_not2 l h hhl, pair_not2 h d hdh⟩⟩,
      ⟨⟨⟨fun hz => absurd hz nA, fun hz => absurd hz nB,
          fun hz => absurd hz nC⟩,
        pair_not2 a b hba, pair_not2 b c hcb, pair_not2 c d hdc⟩,
       ⟨⟨fun hz => absurd hz nE, fun hz => absurd hz nF,
          fun hz => absurd hz nG⟩,
        pair_not2 e f hfe, pair_not2 f g hgf, pair_not2 g h hhg⟩,
       ⟨⟨fun hz => absurd hz nI, fun hz => absurd hz nJ,
          fun hz => absurd hz nK⟩,
        pair_not2 i j hji, pair_not2 j k hkj, pair_not2 k l hlk⟩,
       ⟨⟨fun hz => absurd hz nM, fun hz => absurd hz nN,
          fun hz => absurd hz nO⟩,
        pair_not1 m n hmn, pair_not1 n o hno, pair_not1 o p hop⟩⟩,
      ⟨⟨⟨fun hz => absurd hz nD, fun hz => absurd hz nC,
          fun hz => absurd hz nB⟩,
        pair_not1 d c hdc, pair_not1 c b hcb, pair_not1 b a hba⟩,
       ⟨⟨fun hz => absurd hz nH, fun hz => absurd hz nG,
          fun hz => absurd hz nF⟩,
        pair_not1 h g hhg, pair_not1 g f hgf, pair_not1 f e hfe⟩,
       ⟨⟨fun hz => absurd hz nL, fun hz => absurd hz nK,
          fun hz => absurd hz nJ⟩,
        pair_not1 l k hlk, pair_not1 k j hkj, pair_not1 j i hji⟩,
       ⟨⟨fun hz => absurd hz nP, fun hz => absurd hz nO,
          fun hz => absurd hz nN⟩,
        pair_not2 p o hop, pair_not2 o n hno, pair_not2 n m hmn⟩⟩⟩

/-- Witness for C2 at a concrete stuck board without 2048. -/
theorem c2_no_moves_iff_lose_witness :
    WF4 [[2,4,2,4],[4,2,4,2],[2,4,2,4],[4,2,4,2]] ∧
    (∃ r ∈ ([[2,4,2,4],[4,2,4,2],[2,4,2,4],[4,2,4,2]] : Board),
      ∃ v ∈ r, v ≠ 0) ∧
    (∀ r ∈ ([[2,4,2,4],[4,2,4,2],[2,4,2,4],[4,2,4,2]] : Board),
      ∀ v ∈ r, v ≠ 2048) ∧
    (get_valid_moves [[2,4,2,4],[4,2,4,2],[2,4,2,4],[4,2,4,2]] = [] ↔
      game_state [[2,4,2,4],[4,2,4,2],[2,4,2,4],[4,2,4,2]] = "lose") :=
  ⟨by decide, by decide, by decide,
   c2_no_moves_iff_lose _ (by decide) (by decide) (by decide)⟩

/-! ### Claim C9: power-of-two invariant -/

/-- Every nonzero cell is a power of two that is at least 2. -/
def PowInv (B : Board) : Prop :=
  ∀ r ∈ B, ∀ v ∈ r, v ≠ 0 → ∃ t, 1 ≤ t ∧ v = 2 ^ t

theorem getD_mem_or {α : Type} (l : List α) (i : Nat) (d : α) :
    l.getD i d ∈ l ∨ l.getD i d = d := by
  induction l generalizing i with
  | nil => exact Or.inr rfl
  | cons x rest ih =>
      cases i with
      | zero => exact Or.inl (List.mem_cons_self _ _)
      | succ i =>
          rcases ih i with h | h
          · exact Or.inl (List.mem_cons_of_mem _ h)
          · exact Or.inr h

theorem mem_set_mem {α : Type} (l : List α) (n : Nat) (x a : α)
    (h : a ∈ l.set n x) : a ∈ l ∨ a = x := by
  induction l generalizing n with
  | nil => cases h
  | cons y rest ih =>
      cases n with
      | zero =>
          rcases List.mem_cons.1 h with rfl | h
          · exact Or.inr rfl
          · exact Or.inl (List.mem_cons_of_mem _ h)
      | succ n =>
          rcases List.mem_cons.1 h with rfl | h
          · exact Or.inl (List.mem_cons_self _ _)
          · rcases ih n h with h | h
            · exact Or.inl (List.mem_cons_of_mem _ h)
            · exact Or.inr h

theorem PowInv_setCell (B : Board) (x y : Nat) (hP : PowInv B) :
    PowInv (setCell B x y 2) := by
  intro r hr v hv hvz
  rcases mem_set_mem _ _ _ _ hr with hrB | rfl
  · exact hP r hrB v hv hvz
  · rcases mem_set_mem _ _ _ _ hv with hvrow | rfl
    · rcases getD_mem_or B x [] with hrow | hempty
      · exact hP _ hrow v hvrow hvz
      · rw [hempty] at hvrow
        cases hvrow
    · exact ⟨1, Nat.le_refl 1, rfl⟩

theorem PowInv_add_two (B : Board) (k : Nat) (hP : PowInv B) :
    PowInv (add_two B k) := by
  unfold add_two
  by_cases he : (empty_cells B).isEmpty
  · simpa [he] using hP
  · simpa [he] using PowInv_setCell B _ _ hP

theorem PowInv_zero_sq (n : Nat) :
    PowInv (List.replicate n (List.replicate n 0)) := by
  intro r hr v hv hvz
  rw [List.eq_of_mem_replicate hr] at hv
  exact absurd (List.eq_of_mem_replicate hv) hvz

theorem PowInv_map_rowRes (M : Board) (hP : PowInv M) :
    PowInv (M.map rowRes) := by
  intro r hr v hv hvz
  obtain ⟨s, hs, rfl⟩ := List.mem_map.1 hr
  rcases rowRes_mem s v hv with h0 | hmem | ⟨w, hw, rfl⟩
  · exact absurd h0 hvz
  · exact hP s hs v hmem hvz
  · have hwz : w ≠ 0 := by omega
    obtain ⟨t, ht, rfl⟩ := hP s hs w hw hwz
    exact ⟨t + 1, by omega, by rw [pow_succ]⟩

theorem PowInv_transpose (M : Board) (hP : PowInv M) :
    PowInv (transpose M) := by
  intro r hr v hv hvz
  obtain ⟨i, _, rfl⟩ := List.mem_map.1 hr
  obtain ⟨row, hrow, rfl⟩ := List.mem_map.1 hv
  rcases getD_mem_or row i 0 with h | h
  · exact hP row hrow _ h hvz
  · exact absurd h hvz

theorem PowInv_reverse (M : Board) (hP : PowInv M) :
    PowInv (reverse M) := by
  intro r hr v hv hvz
  obtain ⟨s, hs, rfl⟩ := List.mem_map.1 hr
  exact hP s hs v (List.mem_reverse.1 hv) hvz

/-- C9: the predicate "every nonzero cell value is a power of two at
least 2" holds of a freshly created board (`new_game`) and is preserved
by `add_two` and by each of the four move operators. -/
theorem c9_power_of_two_invariant :
    (∀ n k₁ k₂ : Nat, PowInv (new_game n k₁ k₂)) ∧
    (∀ (B : Board) (k : Nat), PowInv B → PowInv (add_two B k)) ∧
    (∀ B : Board, PowInv B →
      PowInv (up B).1 ∧ PowInv (down B).1 ∧ PowInv (left B).1 ∧
        PowInv (right B).1) := by
  refine ⟨?_, ?_, ?_⟩
  · intro n k₁ k₂
    exact PowInv_add_two _ _ (PowInv_add_two _ _ (PowInv_zero_sq n))
  · intro B k hP
    exact PowInv_add_two B k hP
  · intro B hP
    refine ⟨?_, ?_, ?_, ?_⟩
    · show PowInv (transpose (cmVal (transpose B)))
      rw [cmVal_eq_map]
      exact PowInv_transpose _ (PowInv_map_rowRes _ (PowInv_transpose _ hP))
    · show PowInv (transpose (reverse (cmVal (reverse (transpose B)))))
      rw [cmVal_eq_map]
      exact PowInv_transpose _ (PowInv_reverse _ (PowInv_map_rowRes _
        (PowInv_reverse _ (PowInv_transpose _ hP))))
    · show PowInv (cmVal B)
      rw [cmVal_eq_map]
      exact PowInv_map_rowRes _ hP
    · show PowInv (reverse (cmVal (reverse B)))
      rw [cmVal_eq_map]
      exact PowInv_reverse _ (PowInv_map_rowRes _ (PowInv_reverse _ hP))

/-- Witness for C9 at a concrete board. -/
theorem c9_power_of_two_invariant_witness :
    PowInv [[2,4,0,0],[0,0,0,0],[0,0,0,0],[0,0,0,8]] ∧
    PowInv (add_two [[2,4,0,0],[0,0,0,0],[0,0,0,0],[0,0,0,8]] 5) ∧
    (PowInv (up [[2,4,0,0],[0,0,0,0],[0,0,0,0],[0,0,0,8]]).1 ∧
     PowInv (down [[2,4,0,0],[0,0,0,0],[0,0,0,0],[0,0,0,8]]).1 ∧
     PowInv (left [[2,4,0,0],[0,0,0,0],[0,0,0,0],[0,0,0,8]]).1 ∧
     PowInv (right [[2,4,0,0],[0,0,0,0],[0,0,0,0],[0,0,0,8]]).1) := by
  have hb0 : PowInv [[2,4,0,0],[0,0,0,0],[0,0,0,0],[0,0,0,8]] := by
    intro r hr v hv hvz
    simp only [List.mem_cons, List.not_mem_nil, or_false] at hr
    rcases hr with rfl | rfl | rfl | rfl <;>
      simp only [List.mem_cons, List.not_mem_nil, or_false] at hv <;>
      rcases hv with rfl | rfl | rfl | rfl <;>
      first
        | exact absurd rfl hvz
        | exact ⟨1, Nat.le_refl 1, rfl⟩
        | exact ⟨2, by omega, rfl⟩
        | exact ⟨3, by omega, rfl⟩
  exact ⟨hb0, c9_power_of_two_invariant.2.1 _ 5 hb0,
    c9_power_of_two_invariant.2.2 _ hb0⟩

/-! ### Response resolver (AIWorker.run, lines 576-652) -/

/-- Bool test: `needle` is a leading segment of `hay`. -/
def chSeqStarts : List Char → List Char → Bool
  | [], _ => true
  | _ :: _, [] => false
  | a :: as, b :: bs => a == b && chSeqStarts as bs

/-- Bool test: `needle` occurs contiguously inside `hay` (Python `in`). -/
def chSeqContains (needle : List Char) : List Char → Bool
  | [] => chSeqStarts needle []
  | c :: rest => chSeqStarts needle (c :: rest) || chSeqContains needle rest

/-- Fuel-bounded scan for `replaceSeq`; the fuel only has to dominate
the length of the text, and every step consumes at least one character
while spending exactly one unit of fuel. -/
def replaceSeqGo (needle repl : List Char) : Nat → List Char → List Char
  | 0, hay => hay
  | _ + 1, [] => []
  | fuel + 1, c :: rest =>
    if needle ≠ [] ∧ chSeqStarts needle (c :: rest) then
      repl ++ replaceSeqGo needle repl fuel (List.drop (needle.length - 1) rest)
    else
      c :: replaceSeqGo needle repl fuel rest

/-- Python `str.replace(pattern, repl)`: leftmost non-overlapping
occurrences.  A nonempty-needle guard keeps the scan faithful; the
source never passes an empty pattern. -/
def replaceSeq (needle repl hay : List Char) : List Char :=
  replaceSeqGo needle repl hay.length hay

/-- The cleanup pattern list of AIWorker.run (brace, quote and
apostrophe characters are built by code point). -/
def cleanup_patterns : List (List Char) :=
  ["<THINK>".data, "</THINK>".data, "<think>".data, "</think>".data,
   "THINK:".data, "THINKING:".data, "THOUGHT:".data, "ANALYSIS:".data,
   "MOVE:".data, "ANSWER:".data, "RESPONSE:".data, "CHOICE:".data,
   "BECAUSE".data, "SINCE".data, "AS".data, "THE".data, "BEST".data,
   "RECOMMENDED".data,
   "(".data, ")".data, "[".data, "]".data,
   [Char.ofNat 123], [Char.ofNat 125], "\"".data, [Char.ofNat 39],
   "IS".data, "TO".data, "MOVE".data, "DIRECTION".data, "STRATEGY".data]

/-- Uppercase, strip the cleanup patterns, and keep only alphabetic and
whitespace characters (`isalpha() or isspace()`), as the source does. -/
def cleanText (s : String) : List Char :=
  ((cleanup_patterns.foldl (fun acc pat => replaceSeq pat [] acc)
      (s.data.map Char.toUpper)).filter
    fun ch => ch.isAlpha || ch.isWhitespace)

/-- Whitespace split (Python `str.split()` drops empty chunks). -/
def splitWsGo : List Char → List Char → List (List Char)
  | [], cur => if cur.isEmpty then [] else [cur.reverse]
  | c :: rest, cur =>
    if c.isWhitespace then
      if cur.isEmpty then splitWsGo rest [] else cur.reverse :: splitWsGo rest []
    else splitWsGo rest (c :: cur)

def splitWs (l : List Char) : List (List Char) := splitWsGo l []

def valid_words : List String := ["UP", "DOWN", "LEFT", "RIGHT"]

/-- First cleaned word that is one of the four direction tokens, or the
empty string (the source initializes `ai_move = ''`). -/
def extractMove (response : String) : String :=
  match ((splitWs (cleanText response)).map fun w => String.mk w).find?
      (fun w => valid_words.contains w) with
  | some w => w
  | none => ""

/-- Python `random.choice(l)` modelled by an index drawn mod the length. -/
def pickIdx (l : List String) (k : Nat) : String := l.getD (k % l.length) ""

/-- Python `max(max(row) for row in matrix)`. -/
def max_tile (matrix : Board) : Nat :=
  (matrix.map fun r => r.foldr max 0).foldr max 0

/-- The response resolver of AIWorker.run: exact word, then substring
containment, then character overlap, then the strategy fallback
(RIGHT/DOWN for large boards) and finally a random legal move. -/
def resolveMove (response : String) (valid_moves : List String)
    (maxTile k : Nat) : String :=
  let ai_move := extractMove response
  if valid_moves.contains ai_move then ai_move
  else
    match valid_moves.find? (fun mv => chSeqContains mv.data ai_move.data) with
    | some mv => mv
    | none =>
      match valid_moves.find?
          (fun mv => mv.data.any fun ch => ai_move.data.contains ch) with
      | some mv => mv
      | none =>
        if 64 ≤ maxTile then
          if valid_moves.contains "RIGHT" && valid_moves.contains "DOWN" then
            pickIdx ["RIGHT", "DOWN"] k
          else if valid_moves.contains "RIGHT" then "RIGHT"
          else if valid_moves.contains "DOWN" then "DOWN"
          else valid_moves.headD ""
        else pickIdx valid_moves k

theorem getD_mem_of_lt {α : Type} (l : List α) (i : Nat) (d : α)
    (h : i < l.length) : l.getD i d ∈ l := by
  induction l generalizing i with
  | nil => cases h
  | cons x rest ih =>
      cases i with
      | zero => exact List.mem_cons_self _ _
      | succ i =>
          exact List.mem_cons_of_mem _ (ih i (by simpa using h))

theorem pickIdx_mem (l : List String) (k : Nat) (h : l ≠ []) :
    pickIdx l k ∈ l := by
  unfold pickIdx
  have hlen : 0 < l.length := List.length_pos.2 h
  exact getD_mem_of_lt l _ "" (Nat.mod_lt _ hlen)

theorem headD_mem (l : List String) (h : l ≠ []) : l.headD "" ∈ l := by
  cases l with
  | nil => exact absurd rfl h
  | cons x rest => exact List.mem_cons_self _ _

theorem contains_mem (l : List String) (s : String)
    (h : l.contains s = true) : s ∈ l := by
  simpa using h

/-- C5: for every nonempty legal-move list and every raw model output
text — including text containing no direction token — the response
resolver returns an element of the legal-move list and never fails
(the Lean model is a total function). -/
theorem c5_resolver_returns_legal (response : String) (S : List String)
    (mt k : Nat) (hS : S ≠ []) : resolveMove response S mt k ∈ S := by
  unfold resolveMove
  by_cases h1 : S.contains (extractMove response) = true
  · rw [if_pos h1]
    exact contains_mem S _ h1
  · rw [if_neg h1]
    cases h2 : S.find? (fun mv => chSeqContains mv.data (extractMove response).data) with
    | some mv =>
        simp only [h2]
        exact List.mem_of_find?_eq_some h2
    | none =>
        simp only [h2]
        cases h3 : S.find?
            (fun mv => mv.data.any fun ch => (extractMove response).data.contains ch) with
        | some mv =>
            simp only [h3]
            exact List.mem_of_find?_eq_some h3
        | none =>
            simp only [h3]
            by_cases h4 : 64 ≤ mt
            · rw [if_pos h4]
              by_cases h5 : (S.contains "RIGHT" && S.contains "DOWN") = true
              · rw [if_pos h5]
                have h5' : S.contains "RIGHT" = true ∧ S.contains "DOWN" = true := by
                  constructor <;> simp_all
                rcases List.mem_cons.1 (pickIdx_mem ["RIGHT", "DOWN"] k (by simp)) with
                  hm | hm
                · rw [hm]
                  exact contains_mem S _ h5'.1
                · rcases List.mem_cons.1 hm with hm' | hm'
                  · rw [hm']
                    exact contains_mem S _ h5'.2
                  · cases hm'
              · rw [if_neg h5]
                by_cases h6 : S.contains "RIGHT" = true
                · rw [if_pos h6]
                  exact contains_mem S _ h6
                · rw [if_neg h6]
                  by_cases h7 : S.contains "DOWN" = true
                  · rw [if_pos h7]
                    exact contains_mem S _ h7
                  · rw [if_neg h7]
                    exact headD_mem S hS
            · rw [if_neg h4]
              exact pickIdx_mem S k hS

/-- Witness for C5: text with no direction token still resolves to the
single legal move. -/
theorem c5_resolver_returns_legal_witness :
    (["DOWN"] : List String) ≠ [] ∧
    resolveMove "I cannot decide, maybe go somewhere nice" ["DOWN"] 128 7 ∈
      (["DOWN"] : List String) :=
  ⟨by decide, c5_resolver_returns_legal "I cannot decide, maybe go somewhere nice"
    ["DOWN"] 128 7 (by decide)⟩

/-! ### Claim C6: spawning a tile -/

theorem mem_empty_cells (mat : Board) (q : Nat × Nat)
    (h : q ∈ empty_cells mat) : getCell mat q.1 q.2 = 0 := by
  unfold empty_cells at h
  simp only [List.mem_flatMap, List.mem_map, List.mem_filter,
    List.mem_range] at h
  obtain ⟨i, _, j, ⟨_, hj0⟩, rfl⟩ := h
  simpa using hj0

/-- C6: the list-based `add_two` of ai_game.py / console_game.py is a
no-op on a board with no empty cell, and otherwise writes a 2 into one
chosen currently-empty cell; the rejection-sampling `add_two` of game.py
instead resamples forever on a full board — modelled with an explicit
random stream, it fails to terminate for every stream. -/
theorem c6_add_two_spec :
    (∀ (mat : Board) (k : Nat), empty_cells mat = [] → add_two mat k = mat) ∧
    (∀ (mat : Board) (k : Nat), empty_cells mat ≠ [] →
      ∃ q ∈ empty_cells mat, getCell mat q.1 q.2 = 0 ∧
        add_two mat k = setCell mat q.1 q.2 2) ∧
    (∀ samples : List (Nat × Nat),
      add_two_rej [[2,4,2,4],[4,2,4,2],[2,4,2,4],[4,2,4,2]] samples = none) := by
  refine ⟨?_, ?_, ?_⟩
  · intro mat k he
    unfold add_two
    rw [if_pos (by simp [he])]
  · intro mat k hne
    have hlen : 0 < (empty_cells mat).length := List.length_pos.2 hne
    have hq : (empty_cells mat).getD (k % (empty_cells mat).length) (0, 0) ∈
        empty_cells mat :=
      getD_mem_of_lt _ _ _ (Nat.mod_lt _ hlen)
    refine ⟨_, hq, mem_empty_cells mat _ hq, ?_⟩
    unfold add_two
    rw [if_neg (by simp [hne])]
  · intro samples
    induction samples with
    | nil => rfl
    | cons s rest ih =>
        obtain ⟨x, y⟩ := s
        have hx : x % 4 = 0 ∨ x % 4 = 1 ∨ x % 4 = 2 ∨ x % 4 = 3 := by omega
        have hy : y % 4 = 0 ∨ y % 4 = 1 ∨ y % 4 = 2 ∨ y % 4 = 3 := by omega
        simp only [add_two_rej, List.length_cons, List.length_nil]
        rcases hx with hx | hx | hx | hx <;> rcases hy with hy | hy | hy | hy <;>
          simp [hx, hy, getCell, ih]

/-- Witness for C6: no-op on a full board, and a spawn into the single
empty cell of an almost-full board. -/
theorem c6_add_two_spec_witness :
    (empty_cells [[2,4,2,4],[4,2,4,2],[2,4,2,4],[4,2,4,2]] = [] ∧
      add_two [[2,4,2,4],[4,2,4,2],[2,4,2,4],[4,2,4,2]] 7
        = [[2,4,2,4],[4,2,4,2],[2,4,2,4],[4,2,4,2]]) ∧
    (empty_cells [[2,0,2,2],[2,2,2,2],[2,2,2,2],[2,2,2,2]] ≠ [] ∧
      ∃ q ∈ empty_cells [[2,0,2,2],[2,2,2,2],[2,2,2,2],[2,2,2,2]],
        getCell [[2,0,2,2],[2,2,2,2],[2,2,2,2],[2,2,2,2]] q.1 q.2 = 0 ∧
        add_two [[2,0,2,2],[2,2,2,2],[2,2,2,2],[2,2,2,2]] 5
          = setCell [[2,0,2,2],[2,2,2,2],[2,2,2,2],[2,2,2,2]] q.1 q.2 2) ∧
    add_two_rej [[2,4,2,4],[4,2,4,2],[2,4,2,4],[4,2,4,2]] [(0,0),(1,2),(3,3)]
      = none :=
  ⟨⟨by decide, c6_add_two_spec.1 _ 7 (by decide)⟩,
   ⟨by decide, c6_add_two_spec.2.1 _ 5 (by decide)⟩,
   c6_add_two_spec.2.2 [(0,0),(1,2),(3,3)]⟩

/-! ### Claim C8: the decision cache -/

/-- Cache keys of AIWorker: (board snapshot, sorted legal moves,
strategy identifier). -/
abbrev CacheKey := Board × List String × String

/-- The class-level `_move_cache` dict, modelled as an association
list. -/
abbrev MoveCache := List (CacheKey × String)

def cacheLookup (c : MoveCache) (key : CacheKey) : Option String :=
  (c.find? fun e => decide (e.1 = key)).map Prod.snd

/-- Insertion with the hard 1000-entry capacity ceiling of
`AIWorker.run` (`if len(AIWorker._move_cache) < 1000`). -/
def cachePut (c : MoveCache) (key : CacheKey) (mv : String) : MoveCache :=
  if c.length < 1000 then (key, mv) :: c else c

/-- Python `tuple(sorted(valid_moves))`. -/
def sortStrs (l : List String) : List String :=
  l.mergeSort fun a b => decide (a ≤ b)

/-- Outcome of one decision of AIWorker.run: the chosen move, the cache
afterwards, and the number of external model invocations so far. -/
structure DecideResult where
  move : String
  cache : MoveCache
  calls : Nat

/-- The decision core of AIWorker.run: build the cache key, return a
cached move if present, else invoke the model (`oracle`, indexed by the
invocation counter), resolve its text to a legal move and cache the
result subject to the capacity ceiling. -/
def workerDecide (cache : MoveCache) (matrix : Board)
    (valid_moves : List String) (strategy : String) (oracle : Nat → String)
    (calls k : Nat) : DecideResult :=
  match cacheLookup cache (matrix, sortStrs valid_moves, strategy) with
  | some mv => ⟨mv, cache, calls⟩
  | none =>
    let mv := resolveMove (oracle calls) valid_moves (max_tile matrix) k
    ⟨mv, cachePut cache (matrix, sortStrs valid_moves, strategy) mv, calls + 1⟩

theorem cacheLookup_put (c : MoveCache) (key : CacheKey) (mv : String)
    (h : c.length < 1000) : cacheLookup (cachePut c key mv) key = some mv := by
  unfold cacheLookup cachePut
  rw [if_pos h]
  simp [List.find?]

/-- C8 (amended): provided the cache holds fewer than its 1000-entry
ceiling when the first decision is made, a second request with the
identical (board, sorted legal moves, strategy) key returns the same
direction, leaves the cache unchanged and performs no further external
model invocation; and a `Put` on a cache at (or beyond) the ceiling is a
silent no-op. -/
theorem c8_cached_decision_stable (cache : MoveCache) (matrix : Board)
    (vm : List String) (strat : String) (oracle : Nat → String)
    (calls k₁ k₂ : Nat) (hcap : cache.length < 1000) :
    ((workerDecide (workerDecide cache matrix vm strat oracle calls k₁).cache
        matrix vm strat oracle
        (workerDecide cache matrix vm strat oracle calls k₁).calls k₂).move
      = (workerDecide cache matrix vm strat oracle calls k₁).move ∧
     (workerDecide (workerDecide cache matrix vm strat oracle calls k₁).cache
        matrix vm strat oracle
        (workerDecide cache matrix vm strat oracle calls k₁).calls k₂).calls
      = (workerDecide cache matrix vm strat oracle calls k₁).calls ∧
     (workerDecide (workerDecide cache matrix vm strat oracle calls k₁).cache
        matrix vm strat oracle
        (workerDecide cache matrix vm strat oracle calls k₁).calls k₂).cache
      = (workerDecide cache matrix vm strat oracle calls k₁).cache) ∧
    (∀ (c : MoveCache) (key : CacheKey) (mv : String), 1000 ≤ c.length →
      cachePut c key mv = c) := by
  constructor
  · cases hl : cacheLookup cache (matrix, sortStrs vm, strat) with
    | some mv => simp [workerDecide, hl]
    | none =>
        simp only [workerDecide, hl]
        rw [cacheLookup_put cache _ _ hcap]
        exact ⟨rfl, rfl, rfl⟩
  · intro c key mv h
    unfold cachePut
    rw [if_neg (by omega)]

/-- Witness for C8 at a concrete below-capacity cache. -/
theorem c8_cached_decision_stable_witness :
    ([] : MoveCache).length < 1000 ∧
    ((workerDecide (workerDecide [] [[2,0,0,0],[0,0,0,0],[0,0,0,0],[0,0,0,0]]
        ["UP", "DOWN", "LEFT", "RIGHT"] "snake" (fun _ => "LEFT") 0 0).cache
        [[2,0,0,0],[0,0,0,0],[0,0,0,0],[0,0,0,0]]
        ["UP", "DOWN", "LEFT", "RIGHT"] "snake" (fun _ => "LEFT")
        (workerDecide [] [[2,0,0,0],[0,0,0,0],[0,0,0,0],[0,0,0,0]]
          ["UP", "DOWN", "LEFT", "RIGHT"] "snake" (fun _ => "LEFT") 0 0).calls
        0).move
      = (workerDecide [] [[2,0,0,0],[0,0,0,0],[0,0,0,0],[0,0,0,0]]
          ["UP", "DOWN", "LEFT", "RIGHT"] "snake" (fun _ => "LEFT") 0 0).move ∧
     (workerDecide (workerDecide [] [[2,0,0,0],[0,0,0,0],[0,0,0,0],[0,0,0,0]]
        ["UP", "DOWN", "LEFT", "RIGHT"] "snake" (fun _ => "LEFT") 0 0).cache
        [[2,0,0,0],[0,0,0,0],[0,0,0,0],[0,0,0,0]]
        ["UP", "DOWN", "LEFT", "RIGHT"] "snake" (fun _ => "LEFT")
        (workerDecide [] [[2,0,0,0],[0,0,0,0],[0,0,0,0],[0,0,0,0]]
          ["UP", "DOWN", "LEFT", "RIGHT"] "snake" (fun _ => "LEFT") 0 0).calls
        0).calls
      = (workerDecide [] [[2,0,0,0],[0,0,0,0],[0,0,0,0],[0,0,0,0]]
          ["UP", "DOWN", "LEFT", "RIGHT"] "snake" (fun _ => "LEFT") 0 0).calls ∧
     (workerDecide (workerDecide [] [[2,0,0,0],[0,0,0,0],[0,0,0,0],[0,0,0,0]]
        ["UP", "DOWN", "LEFT", "RIGHT"] "snake" (fun _ => "LEFT") 0 0).cache
        [[2,0,0,0],[0,0,0,0],[0,0,0,0],[0,0,0,0]]
        ["UP", "DOWN", "LEFT", "RIGHT"] "snake" (fun _ => "LEFT")
        (workerDecide [] [[2,0,0,0],[0,0,0,0],[0,0,0,0],[0,0,0,0]]
          ["UP", "DOWN", "LEFT", "RIGHT"] "snake" (fun _ => "LEFT") 0 0).calls
        0).cache
      = (workerDecide [] [[2,0,0,0],[0,0,0,0],[0,0,0,0],[0,0,0,0]]
          ["UP", "DOWN", "LEFT", "RIGHT"] "snake" (fun _ => "LEFT") 0 0).cache) ∧
    (∀ (c : MoveCache) (key : CacheKey) (mv : String), 1000 ≤ c.length →
      cachePut c key mv = c) :=
  ⟨by decide,
   (c8_cached_decision_stable [] [[2,0,0,0],[0,0,0,0],[0,0,0,0],[0,0,0,0]]
     ["UP", "DOWN", "LEFT", "RIGHT"] "snake" (fun _ => "LEFT") 0 0 0
     (by decide)).1,
   (c8_cached_decision_stable [] [[2,0,0,0],[0,0,0,0],[0,0,0,0],[0,0,0,0]]
     ["UP", "DOWN", "LEFT", "RIGHT"] "snake" (fun _ => "LEFT") 0 0 0
     (by decide)).2⟩

set_option maxRecDepth 100000 in
set_option maxHeartbeats 4000000 in
/-- C8 counterexample: when the cache already holds its 1000-entry
ceiling, the first decision is not stored, so a second request with the
identical key invokes the external model again (the invocation counter
rises from 1 to 2) and returns a different direction ("RIGHT" instead of
"LEFT"), contradicting the claim as stated. -/
theorem c8_counterexample :
    (workerDecide (List.replicate 1000 ((([] : Board), ([] : List String), ""), "UP"))
        [[2,0,0,0],[0,0,0,0],[0,0,0,0],[0,0,0,0]] ["UP","DOWN","LEFT","RIGHT"]
        "snake" (fun n => if n = 0 then "LEFT" else "RIGHT") 0 0).move = "LEFT" ∧
    (workerDecide (List.replicate 1000 ((([] : Board), ([] : List String), ""), "UP"))
        [[2,0,0,0],[0,0,0,0],[0,0,0,0],[0,0,0,0]] ["UP","DOWN","LEFT","RIGHT"]
        "snake" (fun n => if n = 0 then "LEFT" else "RIGHT") 0 0).calls = 1 ∧
    (workerDecide
        (workerDecide (List.replicate 1000 ((([] : Board), ([] : List String), ""), "UP"))
          [[2,0,0,0],[0,0,0,0],[0,0,0,0],[0,0,0,0]] ["UP","DOWN","LEFT","RIGHT"]
          "snake" (fun n => if n = 0 then "LEFT" else "RIGHT") 0 0).cache
        [[2,0,0,0],[0,0,0,0],[0,0,0,0],[0,0,0,0]] ["UP","DOWN","LEFT","RIGHT"]
        "snake" (fun n => if n = 0 then "LEFT" else "RIGHT")
        (workerDecide (List.replicate 1000 ((([] : Board), ([] : List String), ""), "UP"))
          [[2,0,0,0],[0,0,0,0],[0,0,0,0],[0,0,0,0]] ["UP","DOWN","LEFT","RIGHT"]
          "snake" (fun n => if n = 0 then "LEFT" else "RIGHT") 0 0).calls 0).move
      = "RIGHT" ∧
    (workerDecide
        (workerDecide (List.replicate 1000 ((([] : Board), ([] : List String), ""), "UP"))
          [[2,0,0,0],[0,0,0,0],[0,0,0,0],[0,0,0,0]] ["UP","DOWN","LEFT","RIGHT"]
          "snake" (fun n => if n = 0 then "LEFT" else "RIGHT") 0 0).cache
        [[2,0,0,0],[0,0,0,0],[0,0,0,0],[0,0,0,0]] ["UP","DOWN","LEFT","RIGHT"]
        "snake" (fun n => if n = 0 then "LEFT" else "RIGHT")
        (workerDecide (List.replicate 1000 ((([] : Board), ([] : List String), ""), "UP"))
          [[2,0,0,0],[0,0,0,0],[0,0,0,0],[0,0,0,0]] ["UP","DOWN","LEFT","RIGHT"]
          "snake" (fun n => if n = 0 then "LEFT" else "RIGHT") 0 0).calls 0).calls
      = 2 := by
  refine ⟨by decide, by decide, by decide, by decide⟩

end Game2048
